import Mathlib

/-!
Draft releaser: eligibility and promotion workflow.

A shallow embedding of `main` from `src/main.go`.  The program is one linear
function: it reads five environment variables, lists the releases of a
repository through the `gh` command, decides whether the latest release is a
draft that may be published, and then replaces the draft by a published release
through four `gh` commands.

Modelling decisions:

* Go strings are modelled by Lean strings (sequences of characters; the source
  only splits and searches at ASCII text, where bytes and characters agree on
  well-formed UTF-8).
* The process environment, the clock and the external commands are inputs of the
  run (`Env`, `World`).  The result of a run is the sequence of everything the
  process does that is visible from outside (`Event`) and its exit status.
* The standard library calls `csv.Reader.ReadAll` and `json.Unmarshal` are
  parameters of the world; `strconv.Atoi`, `strings.Split`, `strings.Contains`,
  `strings.Join`, `time.Parse`, `Time.AddDate` and `Time.After` are modelled
  below.
* An instant is a count of nanoseconds since the Unix epoch together with a
  location, a table of zone transitions.  `Time.AddDate` and `Time.After` follow
  Go 1.17 and later: the calendar arithmetic is done on the wall clock of the
  location and the second counters wrap at 64 bits.  The parsed date of a
  release is in UTC; the clock `now` of the world carries the local zone.
-/

namespace DraftReleaser

/-! ## Strings -/

/-- Worker of `Split` on character lists: the pieces between the occurrences of
`sep`; the result is never empty. -/
def splitChars (sep : Char) : List Char → List (List Char)
  | [] => [[]]
  | c :: cs =>
    if c = sep then [] :: splitChars sep cs
    else
      match splitChars sep cs with
      | [] => [[c]]
      | piece :: pieces => (c :: piece) :: pieces

/-- Go `strings.Split(s, sep)` for a separator of one character (the source
uses `","` and `"\n"`): all pieces between the separators, `[""]` for the empty
string. -/
def Split (s : String) (sep : Char) : List String :=
  (splitChars sep s.data).map String.mk

/-- Worker of `Contains`: some suffix of the text starts with `sub`. -/
def containsChars (sub : List Char) : List Char → Bool
  | [] => sub.isPrefixOf []
  | c :: cs => sub.isPrefixOf (c :: cs) || containsChars sub cs

/-- Go `strings.Contains(s, substr)`: `substr` occurs in `s` at some offset. -/
def Contains (s substr : String) : Bool :=
  containsChars substr.data s.data

/-- Go `strings.Join(elems, sep)`. -/
def Join (elems : List String) (sep : String) : String :=
  sep.intercalate elems

/-! ## `strconv.Atoi` -/

/-- ASCII decimal digit. -/
def isDigit (c : Char) : Bool :=
  decide (48 ≤ c.toNat) && decide (c.toNat ≤ 57)

/-- Value of a string of decimal digits, `none` when a character is not a digit
or the string is empty. -/
def digitsValue : List Char → Option Nat
  | [] => none
  | cs => if cs.all isDigit then some (cs.foldl (fun n c => 10 * n + (c.toNat - 48)) 0) else none

/-- Go `strconv.Atoi` on a 64-bit platform: an optional sign, then one or more
decimal digits; `none` stands for the returned error (bad syntax or a value
outside the range of `int`). -/
def Atoi (s : String) : Option Int :=
  let signed : Option Int :=
    match s.data with
    | '-' :: cs => (digitsValue cs).map (fun n => - (n : Int))
    | '+' :: cs => (digitsValue cs).map (fun n => (n : Int))
    | cs => (digitsValue cs).map (fun n => (n : Int))
  match signed with
  | some n => if - (2 : Int) ^ 63 ≤ n ∧ n < (2 : Int) ^ 63 then some n else none
  | none => none

/-! ## Time -/

/-- A signed 64-bit integer after overflow: the value modulo 2^64 in the range
from -2^63 to 2^63 - 1. -/
def wrap64 (x : Int) : Int :=
  (x + 9223372036854775808) % 18446744073709551616 - 9223372036854775808

/-- A `time.Location` without its names: the offset (seconds east of UTC) before
the first transition, and the transitions in ascending order, each with its
Unix second and the offset that holds from then on. -/
structure Location where
  initial : Int
  transitions : List (Int × Int)
  deriving DecidableEq, Repr

/-- The location `time.UTC`. -/
def UTC : Location := ⟨0, []⟩

/-- Worker of `Location.lookup`: walks the transitions with the offset and the
start of the zone found so far. -/
def lookupFrom (sec offset start : Int) : List (Int × Int) → Int × Int × Int
  | [] => (offset, start, 9223372036854775807)
  | (w, off) :: rest => if sec < w then (offset, start, w) else lookupFrom sec off w rest

/-- The method `lookup` of `time.Location`: the offset in use at a Unix second
and the start and end (exclusive) of the period in which it is in use; the
first period starts at -2^63 and the last ends at 2^63 - 1. -/
def Location.lookup (l : Location) (sec : Int) : Int × Int × Int :=
  lookupFrom sec l.initial (-9223372036854775808) l.transitions

/-- An instant: nanoseconds since 1970-01-01T00:00:00Z, and the location the
instant is shown in. -/
structure Time where
  unixNano : Int
  loc : Location
  deriving DecidableEq, Repr

/-- Nanoseconds in one day. -/
def nanosPerDay : Int := 86400 * 1000000000

/-- Seconds from the first of January of year 1 to the Unix epoch
(`unixToInternal`). -/
def unixToInternal : Int := 62135596800

/-- The seconds that `Time.After` compares: the seconds since year 1 as a signed
64-bit integer (the field `ext`). -/
def Time.sec (t : Time) : Int :=
  wrap64 (t.unixNano / 1000000000 + unixToInternal)

/-- The nanoseconds within the second. -/
def Time.nsec (t : Time) : Int :=
  t.unixNano % 1000000000

/-- Go `t.AddDate(0, 0, days)`: the date and the clock of `t` in its location
are read, and `time.Date` builds the instant with `days` added to the day.
`time.Date` first takes the wall clock as if it were UTC, as a signed 64-bit
count of seconds, then subtracts the offset that the location has there (looked
up again at the corrected second when that leaves the period of the first
lookup). -/
def Time.AddDate (t : Time) (days : Int) : Time :=
  let sec := t.unixNano / 1000000000
  let wall := sec + (t.loc.lookup sec).1
  let unix := wrap64 (wall + days * 86400)
  let zone := t.loc.lookup unix
  let adjusted :=
    if zone.1 ≠ 0 then
      let utc := wrap64 (unix - zone.1)
      let offset := if utc < zone.2.1 ∨ utc ≥ zone.2.2 then (t.loc.lookup utc).1 else zone.1
      wrap64 (unix - offset)
    else unix
  ⟨adjusted * 1000000000 + t.unixNano % 1000000000, t.loc⟩

/-- Go `t.After(u)`: `t` is strictly later than `u`, by the seconds and then the
nanoseconds. -/
def Time.After (t u : Time) : Bool :=
  decide (t.sec > u.sec ∨ (t.sec = u.sec ∧ t.nsec > u.nsec))

/-- Leap year of the proleptic Gregorian calendar. -/
def isLeap (year : Nat) : Bool :=
  year % 4 == 0 && (year % 100 != 0 || year % 400 == 0)

/-- Number of days of a month (1 to 12) of a year. -/
def daysIn (month year : Nat) : Nat :=
  if month == 2 then (if isLeap year then 29 else 28)
  else if month == 4 || month == 6 || month == 9 || month == 11 then 30
  else 31

/-- Days of a non-leap year before the first of a month (1 to 12). -/
def daysBefore (month : Nat) : Nat :=
  [0, 31, 59, 90, 120, 151, 181, 212, 243, 273, 304, 334].getD (month - 1) 0

/-- Days from 0000-01-01 to the first of January of a year. -/
def daysBeforeYear (year : Nat) : Nat :=
  365 * year + (year + 3) / 4 - (year + 99) / 100 + (year + 399) / 400

/-- Go `time.Date(year, month, day, hour, min, sec, nsec, time.UTC)` for fields
that are in range. -/
def Date (year month day hour min sec nsec : Nat) : Time :=
  let days : Int :=
    (daysBeforeYear year + daysBefore month
      + (if isLeap year && decide (3 ≤ month) then 1 else 0) + (day - 1) : Nat) - 719528
  ⟨(days * 86400 + (hour * 3600 + min * 60 + sec : Nat)) * 1000000000 + nsec, UTC⟩

/-- The `getnum` helper of Go's `time` package: one or two leading digits, two
required when `fixed`. -/
def getnum (fixed : Bool) : List Char → Option (Nat × List Char)
  | [] => none
  | c :: rest =>
    if !isDigit c then none
    else
      match rest with
      | d :: rest2 =>
        if isDigit d then some ((c.toNat - 48) * 10 + (d.toNat - 48), rest2)
        else if fixed then none else some (c.toNat - 48, rest)
      | [] => if fixed then none else some (c.toNat - 48, [])

/-- Literal layout character: the value must continue with it. -/
def skipChar (c : Char) : List Char → Option (List Char)
  | [] => none
  | d :: rest => if d = c then some rest else none

/-- Fractional second that `time.Parse` accepts after the seconds field although
the layout has none: a period or comma and at least one digit.  Digits after the
ninth are dropped.  Returns the nanoseconds and the rest of the value. -/
def fractionalSecond : List Char → Nat × List Char
  | sepc :: d :: rest =>
    if (sepc = '.' || sepc = ',') && isDigit d then
      let digits := (d :: rest).takeWhile isDigit
      let kept := digits.take 9
      let ns := kept.foldl (fun n c => 10 * n + (c.toNat - 48)) 0
      (ns * 10 ^ (9 - kept.length), (d :: rest).dropWhile isDigit)
    else (0, sepc :: d :: rest)
  | value => (0, value)

/-- A two-digit field of the layout that must stay below `bound`. -/
def field2 (bound : Nat) (v : List Char) : Option (Nat × List Char) :=
  match getnum true v with
  | some (n, rest) => if bound ≤ n then none else some (n, rest)
  | none => none

/-- The date part `2006-01-02` of the layout: a year of four digits, a month
from 01 to 12 and a day of two digits (checked against the month later). -/
def parseYMD (v : List Char) : Option (Nat × Nat × Nat × List Char) :=
  if (v.take 4).length < 4 then none else
  match digitsValue (v.take 4) with
  | none => none
  | some year =>
    match (skipChar '-' (v.drop 4)).bind (field2 13) with
    | none => none
    | some (month, v) =>
      if month = 0 then none else
      match (skipChar '-' v).bind (getnum true) with
      | none => none
      | some (day, v) => some (year, month, day, v)

/-- The clock part `15:04:05` of the layout: an hour of one or two digits below
24, minute and second of two digits below 60, and the fractional second that
`time.Parse` accepts although the layout has none. -/
def parseHMS (v : List Char) : Option (Nat × Nat × Nat × Nat × List Char) :=
  match getnum false v with
  | none => none
  | some (hour, v) =>
    if 24 ≤ hour then none else
    match (skipChar ':' v).bind (field2 60) with
    | none => none
    | some (min, v) =>
      match (skipChar ':' v).bind (field2 60) with
      | none => none
      | some (sec, v) => some (hour, min, sec, fractionalSecond v)

/-- Go `time.Parse("2006-01-02T15:04:05Z", value)`: four-digit year, two-digit
month and day, `T`, hour of one or two digits, two-digit minute and second, an
optional fractional second and the literal `Z`, then the day is checked against
the month; `none` stands for the returned error. -/
def parseTime (value : String) : Option Time :=
  match parseYMD value.data with
  | none => none
  | some (year, month, day, v) =>
    match (skipChar 'T' v).bind parseHMS with
    | none => none
    | some (hour, min, sec, nsec, v) =>
      if v ≠ ['Z'] then none
      else if day < 1 ∨ daysIn month year < day then none
      else some (Date year month day hour min sec nsec)

/-! ## The run and its surroundings -/

/-- The process environment: `os.Getenv`, the empty string for an unset
variable. -/
abbrev Env := String → String

/-- The struct `Release` that the JSON of `gh release view` is decoded into. -/
structure Release where
  Body : String
  Target : String
  IsDraft : Bool
  deriving DecidableEq, Repr

/-- What `exec.Command(...).Output()` returns: the standard output and the
error, if any. -/
structure Output where
  stdout : String
  err : Option String
  deriving DecidableEq, Repr

/-- The surroundings of one run.  `exec` answers a command line given the
command lines run before it; `csvReadAll` is `csv.Reader.ReadAll` with a tab as
the comma; `jsonUnmarshal` is what `json.Unmarshal` leaves in a zero `Release`
(the source ignores its error). -/
structure World where
  now : Time
  exec : List (List String) → List String → Output
  csvReadAll : String → Except String (List (List String))
  jsonUnmarshal : String → Release

/-- An error value handed to `log.Fatal` or `log.Panic`. -/
inductive GoError
  | exec (text : String)
  | csv (text : String)
  | atoi (input : String)
  | timeParse (input : String)
  deriving DecidableEq, Repr

/-- What the process does, in order. -/
inductive Event
  | log (line : String)
  | logError (e : GoError)
  | exec (argv : List String)
  | sleep (seconds : Nat)
  deriving DecidableEq, Repr

/-- How the process ends: `ok` is a return from `main` or `os.Exit(0)`, `fatal`
is `log.Fatal` (status 1), `panic` is `log.Panic` or a run-time panic
(status 2). -/
inductive Exit
  | ok
  | fatal
  | panic
  deriving DecidableEq, Repr

/-- A finished run. -/
structure Run where
  trace : List Event
  exit : Exit
  deriving DecidableEq, Repr

/-- The command lines of a trace, in order. -/
def commands : List Event → List (List String)
  | [] => []
  | Event.exec argv :: rest => argv :: commands rest
  | _ :: rest => commands rest

/-- A command line that creates or deletes a release: `gh release create ...`
or `gh release delete ...`. -/
def isMutating (argv : List String) : Bool :=
  argv.get? 2 == some "create" || argv.get? 2 == some "delete"

/-- The create and delete commands of a run, in order. -/
def mutations (r : Run) : List (List String) :=
  (commands r.trace).filter isMutating

/-- The commands and the pauses of a trace, in order: the trace without its
log lines. -/
def actions : List Event → List Event
  | [] => []
  | Event.exec argv :: rest => Event.exec argv :: actions rest
  | Event.sleep seconds :: rest => Event.sleep seconds :: actions rest
  | _ :: rest => actions rest

/-! ## The command lines of the source -/

/-- The URL built at line 52. -/
def repoUrlOf (repo : String) : String :=
  "https://github.com/" ++ repo ++ ".git"

/-- Line 78. -/
def listCmd (repoUrl : String) : List String :=
  ["gh", "release", "-R", repoUrl, "list"]

/-- Line 137. -/
def viewCmd (repoUrl ver : String) : List String :=
  ["gh", "release", "-R", repoUrl, "view", ver, "--json", "body,targetCommitish,isDraft"]

/-- Line 205, a draft named like its tag. -/
def createDraftCmd (repoUrl tag body target : String) : List String :=
  ["gh", "release", "create", tag, "-d", "-R", repoUrl, "-t", tag, "-n", body, "--target", target]

/-- Line 233, a release that is not a draft, named like its tag. -/
def createCmd (repoUrl tag body target : String) : List String :=
  ["gh", "release", "create", tag, "-R", repoUrl, "-t", tag, "-n", body, "--target", target]

/-- Lines 219 and 249. -/
def deleteCmd (repoUrl tag : String) : List String :=
  ["gh", "release", "delete", tag, "-R", repoUrl, "--yes"]

/-- The name of the temporary draft, line 204. -/
def tempDraftOf (ver : String) : String :=
  ver ++ "-temp"

/-! ## Configuration, lines 31 to 71 -/

/-- The threshold text: `RELEASE_DAYS`, `"7"` when empty. -/
def daysStrOf (env : Env) : String :=
  if (env "RELEASE_DAYS").length = 0 then "7" else env "RELEASE_DAYS"

/-- The label text: `EXCLUDE_LABELS`, the three default labels when empty. -/
def excludeLabelsStrOf (env : Env) : String :=
  if (env "EXCLUDE_LABELS").length = 0 then "Documentation,Features,Bug Fixes"
  else env "EXCLUDE_LABELS"

/-- The slice `excludeLabels`: the label text split at commas, and nil when
`ALL_LABELS` is not empty. -/
def excludeLabelsOf (env : Env) : List String :=
  if (env "ALL_LABELS").length = 0 then Split (excludeLabelsStrOf env) ',' else []

/-- The log line of lines 66 to 71. -/
def labelsBanner (env : Env) : Event :=
  if (env "ALL_LABELS").length = 0 then
    Event.log ("Auto-release blocking categories: " ++ Join (excludeLabelsOf env) ", ")
  else Event.log "Auto-releasing with all release categories"

/-! ## The workflow -/

/-- The loop `for _, line := range strings.Split(out, "\n") { log.Print(line) }`. -/
def logLines (out : String) : List Event :=
  (Split out '\n').map Event.log

/-- The loop of lines 172 to 177 from a given value of `suitable`: the lines it
logs and the final value of `suitable`. -/
def labelLoop (body : String) : List String → Bool → List Event × Bool
  | [], suitable => ([], suitable)
  | label :: rest, suitable =>
    if Contains body label then
      let r := labelLoop body rest false
      (Event.log ("Found label:" ++ label ++ ", disabling auto-release") :: r.1, r.2)
    else labelLoop body rest suitable

/-- Lines 191 to 259: the four commands that replace the draft `ver` by a
published release.  `hist` holds the command lines run so far. -/
def promote (w : World) (hist : List (List String)) (repoUrl ver : String)
    (release : Release) : Run :=
  let tempDraft := tempDraftOf ver
  let c1 := createDraftCmd repoUrl tempDraft release.Body release.Target
  let o1 := w.exec hist c1
  let t1 := [Event.log "No other types of release found",
    Event.log "Draft release valid for auto-releasing. Releasing...",
    Event.log "Creating temporary draft release", Event.exec c1] ++ logLines o1.stdout
  match o1.err with
  | some e => ⟨t1 ++ [Event.logError (GoError.exec e)], Exit.panic⟩
  | none =>
    let c2 := deleteCmd repoUrl ver
    let o2 := w.exec (hist ++ [c1]) c2
    let t2 := t1 ++ [Event.log "Deleting original draft release", Event.exec c2]
      ++ logLines o2.stdout
    match o2.err with
    | some e => ⟨t2 ++ [Event.logError (GoError.exec e)], Exit.panic⟩
    | none =>
      let c3 := createCmd repoUrl ver release.Body release.Target
      let o3 := w.exec (hist ++ [c1, c2]) c3
      let t3 := t2 ++ [Event.log "Recreating release without draft status", Event.exec c3]
        ++ logLines o3.stdout
      match o3.err with
      | some e => ⟨t3 ++ [Event.logError (GoError.exec e)], Exit.panic⟩
      | none =>
        let c4 := deleteCmd repoUrl tempDraft
        let o4 := w.exec (hist ++ [c1, c2, c3]) c4
        let t4 := t3 ++ [Event.log "Waiting 5 seconds", Event.sleep 5,
          Event.log "Deleting temporary draft release", Event.exec c4] ++ logLines o4.stdout
        match o4.err with
        | some e => ⟨t4 ++ [Event.logError (GoError.exec e)], Exit.panic⟩
        | none => ⟨t4, Exit.ok⟩

/-- Lines 148 to 260: the checks on the release detail and the final
decision.  `t` is the trace so far. -/
def evaluate (env : Env) (w : World) (t : List Event) (hist : List (List String))
    (repoUrl ver : String) (release : Release) : Run :=
  if !release.IsDraft then ⟨t ++ [Event.log "Release not draft, exiting"], Exit.panic⟩
  else
    let t := t ++ [Event.log "", Event.log ("Release target: " ++ release.Target),
      Event.log "Release body: |"]
      ++ (Split release.Body '\n').map (fun line => Event.log ("\t" ++ line))
    if !Contains release.Body " Dependency Upgrades" then
      ⟨t ++ [Event.log "Draft release does not contain formatted \"Dependency Upgrades\", exiting"],
        Exit.ok⟩
    else
      let loop := labelLoop release.Body (excludeLabelsOf env) true
      let t := t ++ [Event.log "Dependency upgrades found!",
        Event.log "Looking for labels other than dependency updates"] ++ loop.1 ++ [Event.log ""]
      if (env "DRY_RUN").length > 0 then
        ⟨t ++ [Event.log "DRY_RUN environmental variable set"], Exit.ok⟩
      else if !loop.2 then
        ⟨t ++ [Event.log
          "Draft release is not only dependency changes, notifications being sent instead"],
          Exit.ok⟩
      else
        let r := promote w hist repoUrl ver release
        ⟨t ++ r.trace, r.exit⟩

/-- Lines 102 to 146: the checks on the latest row of the release list, then
the view of the release.  `t` is the trace so far.  An index out of range
(`versionsList[0]` on an empty list, `latestVersion[1]` or `latestVersion[3]` on
a short row) is a run-time panic: the run ends there with no further log
line. -/
def inspect (env : Env) (w : World) (days : Int) (t : List Event) (repoUrl : String)
    (versionsList : List (List String)) : Run :=
  match versionsList with
  | [] => ⟨t, Exit.panic⟩
  | latestVersion :: _ =>
    match latestVersion.get? 1, latestVersion.get? 0, latestVersion.get? 3 with
    | some status, some ver, some rawDate =>
      let t := t ++ [Event.log "Most recent release:", Event.log ("- version: " ++ ver),
        Event.log ("- date: " ++ rawDate), Event.log ""]
      if status ≠ "Draft" then
        ⟨t ++ [Event.log ("Latest release (" ++ ver ++ ") is not a pending draft, exiting")],
          Exit.ok⟩
      else
        match parseTime rawDate with
        | none => ⟨t ++ [Event.logError (GoError.timeParse rawDate)], Exit.fatal⟩
        | some tagDate =>
          let weekAgoDate := w.now.AddDate (-days)
          if tagDate.After weekAgoDate then
            ⟨t ++ [Event.log ("Release not " ++ daysStrOf env ++ " days old yet: " ++ rawDate
              ++ ". Exiting")], Exit.ok⟩
          else
            let c := viewCmd repoUrl ver
            let o := w.exec [listCmd repoUrl] c
            let t := t ++ [Event.log "", Event.log ("Pulling data from draft release " ++ ver ++ ":"),
              Event.exec c]
            match o.err with
            | some e => ⟨t ++ [Event.logError (GoError.exec e)], Exit.fatal⟩
            | none =>
              evaluate env w t [listCmd repoUrl, c] repoUrl ver (w.jsonUnmarshal o.stdout)
    | _, _, _ => ⟨t, Exit.panic⟩

/-- The function `main` of the source: the run of the process in an environment
and a world. -/
def main (env : Env) (w : World) : Run :=
  let repo := env "GITHUB_REPOSITORY"
  if repo.length = 0 then
    ⟨[Event.log "", Event.log "Blank repo URL provided, exiting"], Exit.fatal⟩
  else
    let repoUrl := repoUrlOf repo
    match Atoi (daysStrOf env) with
    | none => ⟨[Event.log "", Event.logError (GoError.atoi (daysStrOf env))], Exit.fatal⟩
    | some days =>
      let c := listCmd repoUrl
      let o := w.exec [] c
      let t := [Event.log "", Event.log ("Repository: " ++ repo),
        Event.log ("Minimum draft age to auto-release: " ++ daysStrOf env), labelsBanner env,
        Event.log "", Event.log ("Repository: " ++ repo),
        Event.log "Getting releases for repository...", Event.exec c]
      match o.err with
      | some e => ⟨t ++ [Event.logError (GoError.exec e)], Exit.fatal⟩
      | none =>
        match w.csvReadAll o.stdout with
        | Except.error e => ⟨t ++ [Event.logError (GoError.csv e)], Exit.fatal⟩
        | Except.ok versionsList =>
          let t := t ++ (if versionsList.length = 0 then
              [Event.log "No releases detected, exiting"] else [])
            ++ [Event.log "Found releases for repository"]
          inspect env w days t repoUrl versionsList

/-! ## The example scenario of the specification -/

/-- Environment with only `GITHUB_REPOSITORY` set, to `org/repo`. -/
def exampleEnv : Env := fun key =>
  if key = "GITHUB_REPOSITORY" then "org/repo" else ""

/-- A world given by its clock, the rows of the release list, the decoded
release detail and the command lines that fail; no command prints anything. -/
def mkWorld (now : Time) (rows : List (List String)) (release : Release)
    (fails : List String → Bool) : World where
  now := now
  exec := fun _ argv => ⟨"", if fails argv then some "exit status 1" else none⟩
  csvReadAll := fun _ => Except.ok rows
  jsonUnmarshal := fun _ => release

/-- The instant 2024-01-10T00:00:00Z on a clock in UTC. -/
def jan10 : Time := ⟨1704844800000000000, UTC⟩

/-- A world at 2024-01-10T00:00:00Z whose latest release is the draft `v1.4.0`
of 2024-01-01 with the given body, and where every command succeeds. -/
def exampleWorld (body : String) : World :=
  mkWorld jan10 [["v1.4.0", "Draft", "v1.4.0", "2024-01-01T00:00:00Z"]] ⟨body, "main", true⟩
    (fun _ => false)

/-- The body of the example scenario. -/
def exampleBody : String := "### Dependency Upgrades\n- bump lib X"

/-- The world of the example in which every `gh release create` fails. -/
def createFailsWorld : World :=
  mkWorld jan10 [["v1.4.0", "Draft", "v1.4.0", "2024-01-01T00:00:00Z"]]
    ⟨exampleBody, "main", true⟩ (fun argv => argv.get? 2 == some "create")

/-- A world whose release list is empty. -/
def noReleasesWorld : World :=
  mkWorld jan10 [] ⟨"", "", false⟩ (fun _ => false)

/-- The example environment with `DRY_RUN` set. -/
def dryRunEnv : Env := fun key =>
  if key = "GITHUB_REPOSITORY" then "org/repo" else if key = "DRY_RUN" then "true" else ""

/-- A body with the marker and the label `Features` in the middle of a word. -/
def midWordBody : String := "### Dependency Upgrades\n- bump NewFeaturesList"

/-- A body with the marker and the word `features` in lower case only. -/
def lowerCaseBody : String := "### Dependency Upgrades\n- bump features"

/-- The example world with another date in the latest row of the release list. -/
def datedWorld (date : String) : World :=
  mkWorld jan10 [["v1.4.0", "Draft", "v1.4.0", date]] ⟨exampleBody, "main", true⟩
    (fun _ => false)

/-- The example environment with `ALL_LABELS` set. -/
def allLabelsEnv : Env := fun key =>
  if key = "GITHUB_REPOSITORY" then "org/repo" else if key = "ALL_LABELS" then "true" else ""

/-- A body with the marker and the three default labels. -/
def labelledBody : String :=
  "### Dependency Upgrades\n### Features\n### Documentation\n### Bug Fixes"

/-- A body that has `Dependency Upgrades` at its very start only, without the
space before it, and a label. -/
def noMarkerBody : String := "Dependency Upgrades\n### Features\n- dependency upgrades"

/-- A world whose latest release is published and whose date is malformed. -/
def publishedWorld : World :=
  mkWorld jan10 [["v1.4.0", "Latest", "v1.4.0", "not-a-date"]] ⟨exampleBody, "main", false⟩
    (fun _ => false)

/-- The example environment with a trailing comma in `EXCLUDE_LABELS`. -/
def trailingCommaEnv : Env := fun key =>
  if key = "GITHUB_REPOSITORY" then "org/repo"
  else if key = "EXCLUDE_LABELS" then "Documentation," else ""

/-- The example environment with the largest threshold that `strconv.Atoi`
accepts. -/
def maxDaysEnv : Env := fun key =>
  if key = "GITHUB_REPOSITORY" then "org/repo"
  else if key = "RELEASE_DAYS" then "9223372036854775807" else ""

/-- The zone `America/New_York` around 2024: standard time (UTC-5) until
2024-03-10T07:00:00Z, daylight time (UTC-4) until 2024-11-03T06:00:00Z, standard
time after. -/
def newYork : Location := ⟨-18000, [(1710054000, -14400), (1730613600, -18000)]⟩

/-- A world whose clock shows 2024-11-05 12:00:00 in New York
(2024-11-05T17:00:00Z) and whose latest release is a draft of
2024-10-29T16:30:00Z. -/
def newYorkWorld : World :=
  mkWorld ⟨1730826000000000000, newYork⟩
    [["v1.4.0", "Draft", "v1.4.0", "2024-10-29T16:30:00Z"]] ⟨exampleBody, "main", true⟩
    (fun _ => false)

/-- The four command lines of lines 205 to 251, in the order of the source. -/
def promotionSteps (repoUrl ver body target : String) : List (List String) :=
  [createDraftCmd repoUrl (tempDraftOf ver) body target, deleteCmd repoUrl ver,
    createCmd repoUrl ver body target, deleteCmd repoUrl (tempDraftOf ver)]

/-! ## Lemmas on the string functions -/

theorem length_eq_zero_iff (s : String) : s.length = 0 ↔ s = "" := by
  constructor
  · intro h
    apply String.ext
    exact List.length_eq_zero.mp h
  · rintro rfl
    rfl

theorem containsChars_iff (sub text : List Char) :
    containsChars sub text = true ↔ sub <:+: text := by
  induction text with
  | nil => cases sub <;> simp [containsChars, List.isPrefixOf]
  | cons c cs ih =>
    simp only [containsChars, Bool.or_eq_true, ih, List.isPrefixOf_iff_prefix]
    rw [List.infix_cons_iff]

/-- The function `Contains` is the search of a contiguous, exact piece of text. -/
theorem Contains_iff (s substr : String) :
    Contains s substr = true ↔ substr.data <:+: s.data := by
  simp [Contains, containsChars_iff]

theorem Contains_empty (s : String) : Contains s "" = true := by
  rw [Contains_iff]
  exact List.nil_infix

/-! ## Lemmas on traces -/

@[simp] theorem commands_nil : commands [] = [] := rfl

@[simp] theorem commands_log (line : String) (rest : List Event) :
    commands (Event.log line :: rest) = commands rest := rfl

@[simp] theorem commands_logError (e : GoError) (rest : List Event) :
    commands (Event.logError e :: rest) = commands rest := rfl

@[simp] theorem commands_sleep (n : Nat) (rest : List Event) :
    commands (Event.sleep n :: rest) = commands rest := rfl

@[simp] theorem commands_exec (argv : List String) (rest : List Event) :
    commands (Event.exec argv :: rest) = argv :: commands rest := rfl

@[simp] theorem commands_labelsBanner (env : Env) (rest : List Event) :
    commands (labelsBanner env :: rest) = commands rest := by
  unfold labelsBanner
  split <;> rfl

@[simp] theorem commands_append (a b : List Event) :
    commands (a ++ b) = commands a ++ commands b := by
  induction a with
  | nil => rfl
  | cons e rest ih => cases e <;> simp [ih]

@[simp] theorem commands_map_log (f : String → String) (lines : List String) :
    commands (lines.map (fun line => Event.log (f line))) = [] := by
  induction lines with
  | nil => rfl
  | cons l rest ih => simpa using ih

@[simp] theorem commands_logLines (out : String) : commands (logLines out) = [] := by
  simpa [logLines] using commands_map_log (fun s => s) (Split out '\n')

@[simp] theorem commands_labelLoop (body : String) (labels : List String) (s : Bool) :
    commands (labelLoop body labels s).1 = [] := by
  induction labels generalizing s with
  | nil => rfl
  | cons l rest ih =>
    simp only [labelLoop]
    split
    · simpa using ih false
    · exact ih s

/-! ## Lemmas on the label loop -/

theorem labelLoop_false (body : String) (labels : List String) :
    (labelLoop body labels false).2 = false := by
  induction labels with
  | nil => rfl
  | cons l rest ih =>
    simp only [labelLoop]
    split
    · simpa using ih
    · exact ih

theorem labelLoop_of_mem (body : String) (labels : List String) (s : Bool) (l : String)
    (hl : l ∈ labels) (hc : Contains body l = true) : (labelLoop body labels s).2 = false := by
  induction labels generalizing s with
  | nil => simp at hl
  | cons l0 rest ih =>
    simp only [labelLoop]
    split
    · simpa using labelLoop_false body rest
    · rename_i hno
      rcases List.mem_cons.mp hl with h | h
      · exact absurd (h ▸ hc) hno
      · exact ih s h

theorem labelLoop_of_none (body : String) (labels : List String) (s : Bool)
    (h : ∀ l ∈ labels, Contains body l = false) : labelLoop body labels s = ([], s) := by
  induction labels with
  | nil => rfl
  | cons l0 rest ih =>
    have h0 : Contains body l0 = false := h l0 (List.mem_cons_self _ _)
    simp only [labelLoop, h0]
    exact ih (fun l hl => h l (List.mem_cons_of_mem _ hl))

/-! ## Lemmas on the stages of the workflow -/

theorem length_pos_iff (s : String) : s.length > 0 ↔ s ≠ "" := by
  rw [← not_iff_not, not_not, ← length_eq_zero_iff]
  omega

/-- An old enough draft whose list and view commands succeed: the run is the
evaluation of the release detail, after a trace that holds these two commands. -/
theorem main_eq_evaluate (env : Env) (w : World) (k : Int) (ver title rawDate : String)
    (more : List String) (rest : List (List String)) (d : Time)
    (hrepo : env "GITHUB_REPOSITORY" ≠ "")
    (hdays : Atoi (daysStrOf env) = some k)
    (hlist : (w.exec [] (listCmd (repoUrlOf (env "GITHUB_REPOSITORY")))).err = none)
    (hcsv : w.csvReadAll (w.exec [] (listCmd (repoUrlOf (env "GITHUB_REPOSITORY")))).stdout
      = Except.ok ((ver :: "Draft" :: title :: rawDate :: more) :: rest))
    (hdate : parseTime rawDate = some d)
    (hold : d.After (w.now.AddDate (-k)) = false)
    (hview : (w.exec [listCmd (repoUrlOf (env "GITHUB_REPOSITORY"))]
      (viewCmd (repoUrlOf (env "GITHUB_REPOSITORY")) ver)).err = none) :
    ∃ t, commands t = [listCmd (repoUrlOf (env "GITHUB_REPOSITORY")),
        viewCmd (repoUrlOf (env "GITHUB_REPOSITORY")) ver] ∧
      main env w = evaluate env w t
        [listCmd (repoUrlOf (env "GITHUB_REPOSITORY")),
          viewCmd (repoUrlOf (env "GITHUB_REPOSITORY")) ver]
        (repoUrlOf (env "GITHUB_REPOSITORY")) ver
        (w.jsonUnmarshal (w.exec [listCmd (repoUrlOf (env "GITHUB_REPOSITORY"))]
          (viewCmd (repoUrlOf (env "GITHUB_REPOSITORY")) ver)).stdout) := by
  have hrepo0 : ¬ (env "GITHUB_REPOSITORY").length = 0 := by
    rwa [length_eq_zero_iff]
  simp only [main, hrepo0, if_false, hdays, hlist, hcsv, inspect, List.get?, ne_eq,
    not_true_eq_false, hdate, hold, hview, Bool.false_eq_true]
  refine ⟨_, ?_, rfl⟩
  simp

/-- A release detail without the marker: success, and no further command. -/
theorem evaluate_no_marker (env : Env) (w : World) (t : List Event) (hist : List (List String))
    (repoUrl ver : String) (release : Release) (hdraft : release.IsDraft = true)
    (hmark : Contains release.Body " Dependency Upgrades" = false) :
    (evaluate env w t hist repoUrl ver release).exit = Exit.ok ∧
      commands (evaluate env w t hist repoUrl ver release).trace = commands t := by
  simp [evaluate, hdraft, hmark]

/-- A release detail with the marker under a dry run: success, no further
command, and the dry-run line is the last line. -/
theorem evaluate_dry (env : Env) (w : World) (t : List Event) (hist : List (List String))
    (repoUrl ver : String) (release : Release) (hdraft : release.IsDraft = true)
    (hmark : Contains release.Body " Dependency Upgrades" = true)
    (hdry : env "DRY_RUN" ≠ "") :
    (evaluate env w t hist repoUrl ver release).exit = Exit.ok ∧
      commands (evaluate env w t hist repoUrl ver release).trace = commands t ∧
      (evaluate env w t hist repoUrl ver release).trace.getLast?
        = some (Event.log "DRY_RUN environmental variable set") := by
  have h : (env "DRY_RUN").length > 0 := (length_pos_iff _).mpr hdry
  simp only [evaluate, hdraft, hmark, h, Bool.not_true, Bool.false_eq_true, if_false, if_true,
    List.getLast?_concat]
  simp

/-- A release detail with the marker and a label, no dry run: success, no
further command, and the notification line is the last line. -/
theorem evaluate_unsuitable (env : Env) (w : World) (t : List Event)
    (hist : List (List String)) (repoUrl ver : String) (release : Release)
    (hdraft : release.IsDraft = true)
    (hmark : Contains release.Body " Dependency Upgrades" = true)
    (hdry : env "DRY_RUN" = "")
    (hloop : (labelLoop release.Body (excludeLabelsOf env) true).2 = false) :
    (evaluate env w t hist repoUrl ver release).exit = Exit.ok ∧
      commands (evaluate env w t hist repoUrl ver release).trace = commands t ∧
      (evaluate env w t hist repoUrl ver release).trace.getLast? = some (Event.log
        "Draft release is not only dependency changes, notifications being sent instead") := by
  have h : ¬ (env "DRY_RUN").length > 0 := by simp [hdry]
  simp only [evaluate, hdraft, hmark, h, hloop, Bool.not_true, Bool.not_false,
    Bool.false_eq_true, if_false, if_true, List.getLast?_concat]
  simp

/-- A release detail with the marker and without a label, no dry run: the run
continues with the promotion. -/
theorem evaluate_promote (env : Env) (w : World) (t : List Event)
    (hist : List (List String)) (repoUrl ver : String) (release : Release)
    (hdraft : release.IsDraft = true)
    (hmark : Contains release.Body " Dependency Upgrades" = true)
    (hdry : env "DRY_RUN" = "")
    (hloop : (labelLoop release.Body (excludeLabelsOf env) true).2 = true) :
    (evaluate env w t hist repoUrl ver release).exit
        = (promote w hist repoUrl ver release).exit ∧
      commands (evaluate env w t hist repoUrl ver release).trace
        = commands t ++ commands (promote w hist repoUrl ver release).trace := by
  simp [evaluate, hdraft, hmark, hdry, hloop]

/-- Under a dry run, or when the label loop rejects the body, the evaluation
issues no command, whatever the release detail is. -/
theorem commands_evaluate_skip (env : Env) (w : World) (t : List Event)
    (hist : List (List String)) (repoUrl ver : String) (release : Release)
    (h : env "DRY_RUN" ≠ "" ∨ (labelLoop release.Body (excludeLabelsOf env) true).2 = false) :
    commands (evaluate env w t hist repoUrl ver release).trace = commands t := by
  unfold evaluate
  split
  · simp
  · split
    · simp
    · rcases h with h | h
      · have h0 : (env "DRY_RUN").length > 0 := (length_pos_iff _).mpr h
        simp [h0]
      · split
        · simp
        · simp [h]

/-- The promotion when its four commands succeed. -/
theorem promote_ok (w : World) (hist : List (List String)) (repoUrl ver : String)
    (release : Release)
    (h : ∀ j, j < 4 → (w.exec (hist ++ (promotionSteps repoUrl ver release.Body
      release.Target).take j) ((promotionSteps repoUrl ver release.Body
      release.Target).getD j [])).err = none) :
    (promote w hist repoUrl ver release).exit = Exit.ok ∧
      commands (promote w hist repoUrl ver release).trace
        = promotionSteps repoUrl ver release.Body release.Target := by
  have h0 := h 0 (by omega)
  have h1 := h 1 (by omega)
  have h2 := h 2 (by omega)
  have h3 := h 3 (by omega)
  simp only [promotionSteps, List.take, List.getD, List.get?, Option.getD, List.append_nil]
    at h0 h1 h2 h3
  simp [promote, promotionSteps, h0, h1, h2, h3]

/-- The promotion when step `k` (counted from 0) is the first to fail. -/
theorem promote_fail (w : World) (hist : List (List String)) (repoUrl ver : String)
    (release : Release) (k : Nat) (hk : k < 4)
    (hprev : ∀ j, j < k → (w.exec (hist ++ (promotionSteps repoUrl ver release.Body
      release.Target).take j) ((promotionSteps repoUrl ver release.Body
      release.Target).getD j [])).err = none)
    (hfail : (w.exec (hist ++ (promotionSteps repoUrl ver release.Body
      release.Target).take k) ((promotionSteps repoUrl ver release.Body
      release.Target).getD k [])).err ≠ none) :
    (promote w hist repoUrl ver release).exit = Exit.panic ∧
      commands (promote w hist repoUrl ver release).trace
        = (promotionSteps repoUrl ver release.Body release.Target).take (k + 1) := by
  obtain ⟨e, he⟩ := Option.ne_none_iff_exists'.mp hfail
  have hk4 : k = 0 ∨ k = 1 ∨ k = 2 ∨ k = 3 := by omega
  rcases hk4 with rfl | rfl | rfl | rfl
  · simp only [promotionSteps, List.take, List.getD, List.get?, Option.getD, List.append_nil]
      at he
    simp [promote, promotionSteps, he]
  · have h0 := hprev 0 (by omega)
    simp only [promotionSteps, List.take, List.getD, List.get?, Option.getD, List.append_nil]
      at he h0
    simp [promote, promotionSteps, he, h0]
  · have h0 := hprev 0 (by omega)
    have h1 := hprev 1 (by omega)
    simp only [promotionSteps, List.take, List.getD, List.get?, Option.getD, List.append_nil]
      at he h0 h1
    simp [promote, promotionSteps, he, h0, h1]
  · have h0 := hprev 0 (by omega)
    have h1 := hprev 1 (by omega)
    have h2 := hprev 2 (by omega)
    simp only [promotionSteps, List.take, List.getD, List.get?, Option.getD, List.append_nil]
      at he h0 h1 h2
    simp [promote, promotionSteps, he, h0, h1, h2]

/-! ## Lemmas on the command lines -/

@[simp] theorem isMutating_listCmd (repoUrl : String) : isMutating (listCmd repoUrl) = false := by
  simp [isMutating, listCmd]

@[simp] theorem isMutating_viewCmd (repoUrl ver : String) :
    isMutating (viewCmd repoUrl ver) = false := by
  simp [isMutating, viewCmd]

@[simp] theorem isMutating_createDraftCmd (repoUrl tag body target : String) :
    isMutating (createDraftCmd repoUrl tag body target) = true := by
  simp [isMutating, createDraftCmd]

@[simp] theorem isMutating_createCmd (repoUrl tag body target : String) :
    isMutating (createCmd repoUrl tag body target) = true := by
  simp [isMutating, createCmd]

@[simp] theorem isMutating_deleteCmd (repoUrl tag : String) :
    isMutating (deleteCmd repoUrl tag) = true := by
  simp [isMutating, deleteCmd]

theorem tempDraftOf_ne (ver : String) : tempDraftOf ver ≠ ver := by
  intro h
  have hl := congrArg String.length h
  simp only [tempDraftOf, String.length_append, add_right_eq_self] at hl
  exact absurd hl (by decide)

/-- Under a dry run, or when the label loop rejects every body, the checks on
the release list add no create or delete command. -/
theorem mutating_inspect_skip (env : Env) (w : World) (days : Int) (t : List Event)
    (repoUrl : String) (versionsList : List (List String))
    (h : env "DRY_RUN" ≠ "" ∨ ∀ body, (labelLoop body (excludeLabelsOf env) true).2 = false) :
    (commands (inspect env w days t repoUrl versionsList).trace).filter isMutating
      = (commands t).filter isMutating := by
  have hskip : ∀ (t : List Event) hist ver release,
      commands (evaluate env w t hist repoUrl ver release).trace = commands t := by
    intro t hist ver release
    apply commands_evaluate_skip
    rcases h with h | h
    · exact Or.inl h
    · exact Or.inr (h _)
  unfold inspect
  dsimp only
  repeat' split
  all_goals simp [hskip]

/-- Under a dry run, or when the label loop rejects every body, no run issues a
create or delete command. -/
theorem mutations_main_skip (env : Env) (w : World)
    (h : env "DRY_RUN" ≠ "" ∨ ∀ body, (labelLoop body (excludeLabelsOf env) true).2 = false) :
    mutations (main env w) = [] := by
  unfold mutations main
  dsimp only
  repeat' split
  all_goals simp [mutating_inspect_skip env w _ _ _ _ h]

/-- The promotion always starts with the creation of the temporary draft. -/
theorem promote_head (w : World) (hist : List (List String)) (repoUrl ver : String)
    (release : Release) :
    (commands (promote w hist repoUrl ver release).trace).head?
      = some (createDraftCmd repoUrl (tempDraftOf ver) release.Body release.Target) := by
  unfold promote
  dsimp only
  repeat' split
  all_goals simp

theorem excludeLabelsOf_unset (env : Env) (h : env "ALL_LABELS" = "") :
    excludeLabelsOf env = Split (excludeLabelsStrOf env) ',' := by
  simp [excludeLabelsOf, h]

theorem excludeLabelsOf_set (env : Env) (h : env "ALL_LABELS" ≠ "") :
    excludeLabelsOf env = [] := by
  have h0 : ¬ (env "ALL_LABELS").length = 0 := by rwa [length_eq_zero_iff]
  simp [excludeLabelsOf, h0]

/-- The evaluation of the release detail only adds to the commands run so far. -/
theorem commands_evaluate_extends (env : Env) (w : World) (t : List Event)
    (hist : List (List String)) (repoUrl ver : String) (release : Release) :
    ∃ extra, commands (evaluate env w t hist repoUrl ver release).trace = commands t ++ extra := by
  unfold evaluate
  dsimp only
  repeat' split
  all_goals simp

/-- A draft that is not too young: the view command is the second command,
whether it succeeds or not. -/
theorem main_views (env : Env) (w : World) (n : Int) (ver title rawDate : String)
    (more : List String) (rest : List (List String)) (d : Time)
    (hrepo : env "GITHUB_REPOSITORY" ≠ "")
    (hdays : Atoi (daysStrOf env) = some n)
    (hlist : (w.exec [] (listCmd (repoUrlOf (env "GITHUB_REPOSITORY")))).err = none)
    (hcsv : w.csvReadAll (w.exec [] (listCmd (repoUrlOf (env "GITHUB_REPOSITORY")))).stdout
      = Except.ok ((ver :: "Draft" :: title :: rawDate :: more) :: rest))
    (hdate : parseTime rawDate = some d)
    (hold : d.After (w.now.AddDate (-n)) = false) :
    (commands (main env w).trace).get? 1
      = some (viewCmd (repoUrlOf (env "GITHUB_REPOSITORY")) ver) := by
  have hrepo0 : ¬ (env "GITHUB_REPOSITORY").length = 0 := by
    rwa [length_eq_zero_iff]
  have hshape : ∃ t, commands t = [listCmd (repoUrlOf (env "GITHUB_REPOSITORY")),
      viewCmd (repoUrlOf (env "GITHUB_REPOSITORY")) ver] ∧
      ((∃ e, main env w = ⟨t ++ [Event.logError (GoError.exec e)], Exit.fatal⟩) ∨
        ∃ hist release, main env w
          = evaluate env w t hist (repoUrlOf (env "GITHUB_REPOSITORY")) ver release) := by
    simp only [main, hrepo0, if_false, hdays, hlist, hcsv, inspect, List.get?, ne_eq,
      not_true_eq_false, hdate, hold, Bool.false_eq_true]
    split
    · refine ⟨_, ?_, Or.inl ⟨_, rfl⟩⟩
      simp
    · refine ⟨_, ?_, Or.inr ⟨_, _, rfl⟩⟩
      simp
  obtain ⟨t, ht, ⟨e, h⟩ | ⟨hist, release, h⟩⟩ := hshape
  · simp [h, ht]
  · obtain ⟨extra, hextra⟩ := commands_evaluate_extends env w t hist
      (repoUrlOf (env "GITHUB_REPOSITORY")) ver release
    simp [h, hextra, ht]

/-- A draft that is too young: success after the list command alone. -/
theorem main_too_young (env : Env) (w : World) (n : Int) (ver title rawDate : String)
    (more : List String) (rest : List (List String)) (d : Time)
    (hrepo : env "GITHUB_REPOSITORY" ≠ "")
    (hdays : Atoi (daysStrOf env) = some n)
    (hlist : (w.exec [] (listCmd (repoUrlOf (env "GITHUB_REPOSITORY")))).err = none)
    (hcsv : w.csvReadAll (w.exec [] (listCmd (repoUrlOf (env "GITHUB_REPOSITORY")))).stdout
      = Except.ok ((ver :: "Draft" :: title :: rawDate :: more) :: rest))
    (hdate : parseTime rawDate = some d)
    (hyoung : d.After (w.now.AddDate (-n)) = true) :
    (main env w).exit = Exit.ok ∧
      commands (main env w).trace = [listCmd (repoUrlOf (env "GITHUB_REPOSITORY"))] := by
  have hrepo0 : ¬ (env "GITHUB_REPOSITORY").length = 0 := by
    rwa [length_eq_zero_iff]
  simp [main, hrepo0, hdays, hlist, hcsv, inspect, hdate, hyoung]

/-! ## Lemmas on the commands and pauses of a trace -/

@[simp] theorem actions_nil : actions [] = [] := rfl

@[simp] theorem actions_log (line : String) (rest : List Event) :
    actions (Event.log line :: rest) = actions rest := rfl

@[simp] theorem actions_logError (e : GoError) (rest : List Event) :
    actions (Event.logError e :: rest) = actions rest := rfl

@[simp] theorem actions_sleep (n : Nat) (rest : List Event) :
    actions (Event.sleep n :: rest) = Event.sleep n :: actions rest := rfl

@[simp] theorem actions_exec (argv : List String) (rest : List Event) :
    actions (Event.exec argv :: rest) = Event.exec argv :: actions rest := rfl

@[simp] theorem actions_labelsBanner (env : Env) (rest : List Event) :
    actions (labelsBanner env :: rest) = actions rest := by
  unfold labelsBanner
  split <;> rfl

@[simp] theorem actions_append (a b : List Event) :
    actions (a ++ b) = actions a ++ actions b := by
  induction a with
  | nil => rfl
  | cons e rest ih => cases e <;> simp [ih]

@[simp] theorem actions_map_log (f : String → String) (lines : List String) :
    actions (lines.map (fun line => Event.log (f line))) = [] := by
  induction lines with
  | nil => rfl
  | cons l rest ih => simpa using ih

@[simp] theorem actions_logLines (out : String) : actions (logLines out) = [] := by
  simpa [logLines] using actions_map_log (fun s => s) (Split out '\n')

@[simp] theorem actions_labelLoop (body : String) (labels : List String) (s : Bool) :
    actions (labelLoop body labels s).1 = [] := by
  induction labels generalizing s with
  | nil => rfl
  | cons l rest ih =>
    simp only [labelLoop]
    split
    · simpa using ih false
    · exact ih s

/-- The commands and pauses of an eligible draft whose commands all succeed: the
list, the view, three steps of the promotion, the pause of 5 seconds and the
last step. -/
theorem actions_main_promoted (env : Env) (w : World) (k : Int) (ver title rawDate : String)
    (more : List String) (rest : List (List String)) (d : Time) (B C : String)
    (hrepo : env "GITHUB_REPOSITORY" ≠ "")
    (hdays : Atoi (daysStrOf env) = some k)
    (hcsv : w.csvReadAll (w.exec [] (listCmd (repoUrlOf (env "GITHUB_REPOSITORY")))).stdout
      = Except.ok ((ver :: "Draft" :: title :: rawDate :: more) :: rest))
    (hdate : parseTime rawDate = some d)
    (hold : d.After (w.now.AddDate (-k)) = false)
    (hjson : w.jsonUnmarshal (w.exec [listCmd (repoUrlOf (env "GITHUB_REPOSITORY"))]
      (viewCmd (repoUrlOf (env "GITHUB_REPOSITORY")) ver)).stdout = ⟨B, C, true⟩)
    (hmark : Contains B " Dependency Upgrades" = true)
    (hlabels : ∀ l ∈ excludeLabelsOf env, Contains B l = false)
    (hdry : env "DRY_RUN" = "")
    (hall : ∀ hist argv, (w.exec hist argv).err = none) :
    actions (main env w).trace
      = [Event.exec (listCmd (repoUrlOf (env "GITHUB_REPOSITORY"))),
          Event.exec (viewCmd (repoUrlOf (env "GITHUB_REPOSITORY")) ver),
          Event.exec (createDraftCmd (repoUrlOf (env "GITHUB_REPOSITORY")) (tempDraftOf ver) B C),
          Event.exec (deleteCmd (repoUrlOf (env "GITHUB_REPOSITORY")) ver),
          Event.exec (createCmd (repoUrlOf (env "GITHUB_REPOSITORY")) ver B C),
          Event.sleep 5,
          Event.exec (deleteCmd (repoUrlOf (env "GITHUB_REPOSITORY")) (tempDraftOf ver))] := by
  have hrepo0 : ¬ (env "GITHUB_REPOSITORY").length = 0 := by
    rwa [length_eq_zero_iff]
  have hloop := labelLoop_of_none B _ true hlabels
  have hdry0 : ¬ (env "DRY_RUN").length > 0 := by simp [hdry]
  simp only [main, hrepo0, if_false, hdays, hall, hcsv, inspect, List.get?, ne_eq,
    not_true_eq_false, hdate, hold, Bool.false_eq_true, hjson, evaluate, Bool.not_true,
    hmark, hloop, hdry0, promote]
  simp

/-! ## Lemmas on time -/

theorem wrap64_of_range (x : Int) (h1 : -9223372036854775808 ≤ x)
    (h2 : x < 9223372036854775808) : wrap64 x = x := by
  unfold wrap64
  omega

/-- The comparison `After` is the comparison of the nanosecond counts when the
seconds of both instants, counted from year 1, fit in 64 bits. -/
theorem After_iff_lt (t u : Time)
    (ht1 : -9223372036854775808 ≤ t.unixNano / 1000000000 + 62135596800)
    (ht2 : t.unixNano / 1000000000 + 62135596800 < 9223372036854775808)
    (hu1 : -9223372036854775808 ≤ u.unixNano / 1000000000 + 62135596800)
    (hu2 : u.unixNano / 1000000000 + 62135596800 < 9223372036854775808) :
    t.After u = true ↔ u.unixNano < t.unixNano := by
  simp only [Time.After, Time.sec, Time.nsec, unixToInternal, decide_eq_true_eq]
  rw [wrap64_of_range _ ht1 ht2, wrap64_of_range _ hu1 hu2]
  omega

/-- In a location without transitions, with an offset of at most one day, for a
clock between 1970 and 2255 and at most 10^13 days, `AddDate` is the exact shift
by 86400 seconds a day. -/
theorem AddDate_fixed_offset (now : Time) (n : Int)
    (hzone : now.loc.transitions = [])
    (hoff1 : -86400 ≤ now.loc.initial) (hoff2 : now.loc.initial ≤ 86400)
    (hnow1 : 0 ≤ now.unixNano) (hnow2 : now.unixNano < 9000000000000000000)
    (hn1 : -10000000000000 ≤ n) (hn2 : n ≤ 10000000000000) :
    (now.AddDate (-n)).unixNano = now.unixNano - n * nanosPerDay := by
  have hday : nanosPerDay = 86400000000000 := by decide
  simp only [Time.AddDate, Location.lookup, hzone, lookupFrom, hday]
  have h0 : wrap64 (now.unixNano / 1000000000 + now.loc.initial + -n * 86400)
      = now.unixNano / 1000000000 + now.loc.initial + -n * 86400 :=
    wrap64_of_range _ (by omega) (by omega)
  rw [h0]
  have h1 : wrap64 (now.unixNano / 1000000000 + now.loc.initial + -n * 86400
      - now.loc.initial) = now.unixNano / 1000000000 + -n * 86400 := by
    rw [wrap64_of_range _ (by omega) (by omega)]
    omega
  rw [h1]
  split_ifs <;> omega

theorem foldl_digits_lt (cs : List Char) (h : cs.all isDigit = true) (a : Nat) :
    cs.foldl (fun n c => 10 * n + (c.toNat - 48)) a < (a + 1) * 10 ^ cs.length := by
  induction cs generalizing a with
  | nil => simp
  | cons c rest ih =>
    simp only [List.all_cons, Bool.and_eq_true] at h
    have hc : c.toNat - 48 ≤ 9 := by
      have := h.1
      simp only [isDigit, Bool.and_eq_true, decide_eq_true_eq] at this
      omega
    have h1 := ih h.2 (10 * a + (c.toNat - 48))
    simp only [List.foldl_cons, List.length_cons]
    calc List.foldl (fun n c => 10 * n + (c.toNat - 48)) (10 * a + (c.toNat - 48)) rest
        < (10 * a + (c.toNat - 48) + 1) * 10 ^ rest.length := h1
      _ ≤ (10 * (a + 1)) * 10 ^ rest.length := Nat.mul_le_mul_right _ (by omega)
      _ = (a + 1) * 10 ^ (rest.length + 1) := by ring

theorem digitsValue_lt (cs : List Char) (y : Nat) (h : digitsValue cs = some y) :
    y < 10 ^ cs.length := by
  unfold digitsValue at h
  split at h
  · simp at h
  · split at h
    · rename_i hall
      simp only [Option.some.injEq] at h
      subst h
      simpa using foldl_digits_lt cs hall 0
    · simp at h

theorem field2_lt (bound : Nat) (v : List Char) (n : Nat) (r : List Char)
    (h : field2 bound v = some (n, r)) : n < bound := by
  unfold field2 at h
  split at h
  · split at h
    · simp at h
    · simp only [Option.some.injEq, Prod.mk.injEq] at h
      omega
  · simp at h

theorem parseYMD_range (v : List Char) (y m d : Nat) (r : List Char)
    (h : parseYMD v = some (y, m, d, r)) : y < 10000 ∧ 1 ≤ m ∧ m ≤ 12 := by
  unfold parseYMD at h
  split at h
  · simp at h
  · split at h
    · simp at h
    · rename_i year hyear
      split at h
      · simp at h
      · rename_i month v1 hmonth
        split at h
        · simp at h
        · split at h
          · simp at h
          · simp only [Option.some.injEq, Prod.mk.injEq] at h
            obtain ⟨rfl, rfl, -, -⟩ := h
            have hy := digitsValue_lt _ _ hyear
            have hlen : (List.take 4 v).length ≤ 4 := by simp
            have hpow : 10 ^ (List.take 4 v).length ≤ 10 ^ 4 :=
              Nat.pow_le_pow_right (by omega) hlen
            obtain ⟨v0, -, hf⟩ := Option.bind_eq_some.mp hmonth
            have hm := field2_lt _ _ _ _ hf
            omega

theorem fractionalSecond_lt (v : List Char) : (fractionalSecond v).1 < 1000000000 := by
  unfold fractionalSecond
  split
  · split
    · rename_i sepc d rest _
      have hall : (List.take 9 (List.takeWhile isDigit (d :: rest))).all isDigit = true := by
        rw [List.all_eq_true]
        intro c hc
        exact List.mem_takeWhile_imp (List.mem_of_mem_take hc)
      have hlt := foldl_digits_lt _ hall 0
      have hlen : (List.take 9 (List.takeWhile isDigit (d :: rest))).length ≤ 9 := by simp
      simp only [Nat.zero_add, Nat.one_mul] at hlt
      calc _ < 10 ^ (List.take 9 (List.takeWhile isDigit (d :: rest))).length
            * 10 ^ (9 - (List.take 9 (List.takeWhile isDigit (d :: rest))).length) :=
              Nat.mul_lt_mul_of_pos_right hlt (by positivity)
        _ = 10 ^ 9 := by rw [← pow_add, Nat.add_sub_cancel' hlen]
        _ = 1000000000 := by norm_num
    · simp
  · simp

theorem parseHMS_range (v : List Char) (h m s ns : Nat) (r : List Char)
    (hp : parseHMS v = some (h, m, s, ns, r)) :
    h < 24 ∧ m < 60 ∧ s < 60 ∧ ns < 1000000000 := by
  unfold parseHMS at hp
  split at hp
  · simp at hp
  · split at hp
    · simp at hp
    · rename_i hhour
      split at hp
      · simp at hp
      · rename_i min v1 hmin
        split at hp
        · simp at hp
        · rename_i sec v2 hsec
          simp only [Option.some.injEq, Prod.mk.injEq] at hp
          obtain ⟨rfl, rfl, rfl, hfrac⟩ := hp
          obtain ⟨v0, -, hf⟩ := Option.bind_eq_some.mp hmin
          obtain ⟨v3, -, hg⟩ := Option.bind_eq_some.mp hsec
          have hmin := field2_lt _ _ _ _ hf
          have hsec := field2_lt _ _ _ _ hg
          have hns := fractionalSecond_lt v2
          have hns2 : ns = (fractionalSecond v2).1 := by
            have := congrArg Prod.fst hfrac
            simpa using this.symm
          omega

theorem daysIn_le (m y : Nat) : daysIn m y ≤ 31 := by
  unfold daysIn
  split_ifs <;> omega

/-- A parsed date lies between the years 0 and 9999. -/
theorem parseTime_range (value : String) (d : Time) (h : parseTime value = some d) :
    -70000000000000000000 ≤ d.unixNano ∧ d.unixNano < 300000000000000000000 := by
  unfold parseTime at h
  split at h
  · simp at h
  · rename_i year month day v hymd
    split at h
    · simp at h
    · rename_i hour min sec nsec v1 hhms
      split at h
      · simp at h
      · split at h
        · simp at h
        · rename_i hday
          simp only [Option.some.injEq] at h
          subst h
          obtain ⟨hy, hm1, hm2⟩ := parseYMD_range _ _ _ _ _ hymd
          obtain ⟨v0, -, hf⟩ := Option.bind_eq_some.mp hhms
          obtain ⟨hh, hmi, hs, hns⟩ := parseHMS_range _ _ _ _ _ _ hf
          have hd31 := daysIn_le month year
          have hbefore : daysBefore month ≤ 334 := by
            interval_cases month <;> decide
          have hleap : (if (isLeap year && decide (3 ≤ month)) = true then 1 else 0) ≤ 1 := by
            split <;> omega
          simp only [Date, daysBeforeYear]
          generalize daysBefore month = b at hbefore
          generalize (if (isLeap year && decide (3 ≤ month)) = true then 1 else 0) = c at hleap
          push_cast
          omega

/-- The loop logs one line for every label of the list that occurs in the
body. -/
theorem labelLoop_logs (body : String) (labels : List String) (s : Bool) (l : String)
    (hl : l ∈ labels) (hc : Contains body l = true) :
    Event.log ("Found label:" ++ l ++ ", disabling auto-release")
      ∈ (labelLoop body labels s).1 := by
  induction labels generalizing s with
  | nil => simp at hl
  | cons l0 rest ih =>
    simp only [labelLoop]
    rcases List.mem_cons.mp hl with h | h
    · subst h
      simp [hc]
    · split
      · exact List.mem_cons_of_mem _ (ih false h)
      · exact ih s h

/-- A release detail that is a draft with the marker: the run reaches the label
loop, and the lines of the loop are in the trace. -/
theorem evaluate_reaches_loop (env : Env) (w : World) (t : List Event)
    (hist : List (List String)) (repoUrl ver : String) (release : Release)
    (hdraft : release.IsDraft = true)
    (hmark : Contains release.Body " Dependency Upgrades" = true) :
    Event.log "Looking for labels other than dependency updates"
        ∈ (evaluate env w t hist repoUrl ver release).trace ∧
      ∀ e ∈ (labelLoop release.Body (excludeLabelsOf env) true).1,
        e ∈ (evaluate env w t hist repoUrl ver release).trace := by
  simp only [evaluate, hdraft, hmark, Bool.not_true, Bool.false_eq_true, if_false]
  constructor
  · repeat' split
    all_goals simp
  · intro e he
    repeat' split
    all_goals simp [he]

/-! ## The claims -/

/-- C1: when the first row of the release list is `(T, "Draft", title, date)`, the
date parses and is not after now minus the threshold, the view returns a draft
with body `B` and target `C`, `B` holds the marker and no exclusion label,
`DRY_RUN` is unset and every command succeeds, then the create and delete
commands of the run are exactly these four, in this order:
`gh release create T-temp -d -R url -t T-temp -n B --target C`,
`gh release delete T -R url --yes`,
`gh release create T -R url -t T -n B --target C` (no `-d`) and
`gh release delete T-temp -R url --yes`.  They follow the list and the view
command, the pause of 5 seconds comes before the last of them, and the run ends
with success. -/
theorem eligible_draft_runs_four_steps (env : Env) (w : World) (repoUrl : String) (k : Int)
    (T title date : String) (more : List String) (rest : List (List String)) (d : Time)
    (B C : String)
    (hurl : repoUrl = "https://github.com/" ++ env "GITHUB_REPOSITORY" ++ ".git")
    (hrepo : env "GITHUB_REPOSITORY" ≠ "")
    (hdays : Atoi (daysStrOf env) = some k)
    (hcsv : w.csvReadAll (w.exec [] ["gh", "release", "-R", repoUrl, "list"]).stdout
      = Except.ok ((T :: "Draft" :: title :: date :: more) :: rest))
    (hdate : parseTime date = some d)
    (hold : d.After (w.now.AddDate (-k)) = false)
    (hjson : w.jsonUnmarshal (w.exec [["gh", "release", "-R", repoUrl, "list"]]
      ["gh", "release", "-R", repoUrl, "view", T, "--json",
        "body,targetCommitish,isDraft"]).stdout = ⟨B, C, true⟩)
    (hmark : " Dependency Upgrades".data <:+: B.data)
    (hlabels : ∀ l ∈ excludeLabelsOf env, ¬ l.data <:+: B.data)
    (hdry : env "DRY_RUN" = "")
    (hall : ∀ hist argv, (w.exec hist argv).err = none) :
    mutations (main env w)
        = [["gh", "release", "create", T ++ "-temp", "-d", "-R", repoUrl, "-t", T ++ "-temp",
              "-n", B, "--target", C],
            ["gh", "release", "delete", T, "-R", repoUrl, "--yes"],
            ["gh", "release", "create", T, "-R", repoUrl, "-t", T, "-n", B, "--target", C],
            ["gh", "release", "delete", T ++ "-temp", "-R", repoUrl, "--yes"]] ∧
      commands (main env w).trace
        = [["gh", "release", "-R", repoUrl, "list"],
            ["gh", "release", "-R", repoUrl, "view", T, "--json",
              "body,targetCommitish,isDraft"],
            ["gh", "release", "create", T ++ "-temp", "-d", "-R", repoUrl, "-t", T ++ "-temp",
              "-n", B, "--target", C],
            ["gh", "release", "delete", T, "-R", repoUrl, "--yes"],
            ["gh", "release", "create", T, "-R", repoUrl, "-t", T, "-n", B, "--target", C],
            ["gh", "release", "delete", T ++ "-temp", "-R", repoUrl, "--yes"]] ∧
      actions (main env w).trace
        = [Event.exec ["gh", "release", "-R", repoUrl, "list"],
            Event.exec ["gh", "release", "-R", repoUrl, "view", T, "--json",
              "body,targetCommitish,isDraft"],
            Event.exec ["gh", "release", "create", T ++ "-temp", "-d", "-R", repoUrl, "-t",
              T ++ "-temp", "-n", B, "--target", C],
            Event.exec ["gh", "release", "delete", T, "-R", repoUrl, "--yes"],
            Event.exec ["gh", "release", "create", T, "-R", repoUrl, "-t", T, "-n", B,
              "--target", C],
            Event.sleep 5,
            Event.exec ["gh", "release", "delete", T ++ "-temp", "-R", repoUrl, "--yes"]] ∧
      (main env w).exit = Exit.ok := by
  have hurl2 : repoUrl = repoUrlOf (env "GITHUB_REPOSITORY") := hurl
  subst hurl2
  have hlistCmd : ["gh", "release", "-R", repoUrlOf (env "GITHUB_REPOSITORY"), "list"]
      = listCmd (repoUrlOf (env "GITHUB_REPOSITORY")) := rfl
  have hviewCmd : ["gh", "release", "-R", repoUrlOf (env "GITHUB_REPOSITORY"), "view", T,
      "--json", "body,targetCommitish,isDraft"]
      = viewCmd (repoUrlOf (env "GITHUB_REPOSITORY")) T := rfl
  rw [hlistCmd] at hcsv hjson
  rw [hviewCmd] at hjson
  have hmark2 : Contains B " Dependency Upgrades" = true := (Contains_iff _ _).mpr hmark
  have hlabels2 : ∀ l ∈ excludeLabelsOf env, Contains B l = false := by
    intro l hl
    have := hlabels l hl
    rw [← Contains_iff] at this
    simpa using this
  obtain ⟨t, ht, hmain⟩ := main_eq_evaluate env w k T title date more rest d hrepo hdays
    (hall _ _) hcsv hdate hold (hall _ _)
  rw [hjson] at hmain
  have hloop := labelLoop_of_none B _ true hlabels2
  have hev := evaluate_promote env w t
    [listCmd (repoUrlOf (env "GITHUB_REPOSITORY")), viewCmd (repoUrlOf (env "GITHUB_REPOSITORY")) T]
    (repoUrlOf (env "GITHUB_REPOSITORY")) T ⟨B, C, true⟩ rfl hmark2 hdry (by rw [hloop])
  have hp := promote_ok w
    [listCmd (repoUrlOf (env "GITHUB_REPOSITORY")), viewCmd (repoUrlOf (env "GITHUB_REPOSITORY")) T]
    (repoUrlOf (env "GITHUB_REPOSITORY")) T ⟨B, C, true⟩ (fun j _ => hall _ _)
  have hact := actions_main_promoted env w k T title date more rest d B C hrepo hdays hcsv
    hdate hold hjson hmark2 hlabels2 hdry hall
  have hcmds : commands (main env w).trace
      = [listCmd (repoUrlOf (env "GITHUB_REPOSITORY")),
          viewCmd (repoUrlOf (env "GITHUB_REPOSITORY")) T]
        ++ promotionSteps (repoUrlOf (env "GITHUB_REPOSITORY")) T B C := by
    rw [hmain, hev.2, hp.2, ht]
  refine ⟨?_, hcmds, hact, ?_⟩
  · unfold mutations
    rw [hcmds]
    simp [promotionSteps, tempDraftOf, listCmd, viewCmd, createDraftCmd, createCmd, deleteCmd,
      isMutating]
  · rw [hmain, hev.1, hp.1]

/-- C1, the example of the specification: tag `v1.4.0`, date 2024-01-01, now
2024-01-10, threshold 7 and the body of the example give the four steps with
the temporary tag `v1.4.0-temp`. -/
theorem eligible_draft_runs_four_steps_witness :
    mutations (main exampleEnv (exampleWorld "### Dependency Upgrades\n- bump lib X"))
      = [["gh", "release", "create", "v1.4.0-temp", "-d", "-R",
            "https://github.com/org/repo.git", "-t", "v1.4.0-temp", "-n",
            "### Dependency Upgrades\n- bump lib X", "--target", "main"],
          ["gh", "release", "delete", "v1.4.0", "-R", "https://github.com/org/repo.git",
            "--yes"],
          ["gh", "release", "create", "v1.4.0", "-R", "https://github.com/org/repo.git", "-t",
            "v1.4.0", "-n", "### Dependency Upgrades\n- bump lib X", "--target", "main"],
          ["gh", "release", "delete", "v1.4.0-temp", "-R", "https://github.com/org/repo.git",
            "--yes"]] ∧
      (main exampleEnv (exampleWorld "### Dependency Upgrades\n- bump lib X")).exit
        = Exit.ok :=
  have h := eligible_draft_runs_four_steps exampleEnv
    (exampleWorld "### Dependency Upgrades\n- bump lib X")
    "https://github.com/org/repo.git" 7 "v1.4.0" "v1.4.0" "2024-01-01T00:00:00Z" [] []
    ⟨1704067200000000000, UTC⟩ "### Dependency Upgrades\n- bump lib X" "main" (by decide)
    (by decide) (by decide) (by rfl) (by decide) (by decide) (by rfl) (by decide) (by decide)
    (by decide) (fun _ _ => rfl)
  ⟨h.1, h.2.2.2⟩

/-- C2: in the promotion of an eligible draft, when step `k` (counted from 0:
create the temporary draft, delete the original, recreate the original, delete
the temporary draft) is the first command that fails, the run ends with failure
status, the commands issued are the list, the view and steps 0 to `k`, and no
later step is issued.  For `k = 0` the delete of the original draft is never
invoked. -/
theorem promotion_stops_at_failed_step (env : Env) (w : World) (repoUrl : String) (n : Int)
    (T title date : String) (more : List String) (rest : List (List String)) (d : Time)
    (B C : String) (k : Nat)
    (hurl : repoUrl = repoUrlOf (env "GITHUB_REPOSITORY"))
    (hrepo : env "GITHUB_REPOSITORY" ≠ "")
    (hdays : Atoi (daysStrOf env) = some n)
    (hlist : (w.exec [] (listCmd repoUrl)).err = none)
    (hcsv : w.csvReadAll (w.exec [] (listCmd repoUrl)).stdout
      = Except.ok ((T :: "Draft" :: title :: date :: more) :: rest))
    (hdate : parseTime date = some d)
    (hold : d.After (w.now.AddDate (-n)) = false)
    (hview : (w.exec [listCmd repoUrl] (viewCmd repoUrl T)).err = none)
    (hjson : w.jsonUnmarshal (w.exec [listCmd repoUrl] (viewCmd repoUrl T)).stdout
      = ⟨B, C, true⟩)
    (hmark : Contains B " Dependency Upgrades" = true)
    (hlabels : ∀ l ∈ excludeLabelsOf env, Contains B l = false)
    (hdry : env "DRY_RUN" = "")
    (hk : k < 4)
    (hprev : ∀ j, j < k →
      (w.exec ([listCmd repoUrl, viewCmd repoUrl T] ++ (promotionSteps repoUrl T B C).take j)
        ((promotionSteps repoUrl T B C).getD j [])).err = none)
    (hfail :
      (w.exec ([listCmd repoUrl, viewCmd repoUrl T] ++ (promotionSteps repoUrl T B C).take k)
        ((promotionSteps repoUrl T B C).getD k [])).err ≠ none) :
    (main env w).exit = Exit.panic ∧
      commands (main env w).trace
        = [listCmd repoUrl, viewCmd repoUrl T] ++ (promotionSteps repoUrl T B C).take (k + 1) ∧
      (∀ j, k < j → j < 4 →
        (promotionSteps repoUrl T B C).getD j [] ∉ commands (main env w).trace) ∧
      (k = 0 → deleteCmd repoUrl T ∉ commands (main env w).trace) := by
  subst hurl
  obtain ⟨t, ht, hmain⟩ := main_eq_evaluate env w n T title date more rest d hrepo hdays
    hlist hcsv hdate hold hview
  rw [hjson] at hmain
  have hloop := labelLoop_of_none B _ true hlabels
  have hev := evaluate_promote env w t
    [listCmd (repoUrlOf (env "GITHUB_REPOSITORY")), viewCmd (repoUrlOf (env "GITHUB_REPOSITORY")) T]
    (repoUrlOf (env "GITHUB_REPOSITORY")) T ⟨B, C, true⟩ rfl hmark hdry (by rw [hloop])
  have hp := promote_fail w
    [listCmd (repoUrlOf (env "GITHUB_REPOSITORY")), viewCmd (repoUrlOf (env "GITHUB_REPOSITORY")) T]
    (repoUrlOf (env "GITHUB_REPOSITORY")) T ⟨B, C, true⟩ k hk hprev hfail
  have hcmds : commands (main env w).trace
      = [listCmd (repoUrlOf (env "GITHUB_REPOSITORY")),
          viewCmd (repoUrlOf (env "GITHUB_REPOSITORY")) T]
        ++ (promotionSteps (repoUrlOf (env "GITHUB_REPOSITORY")) T B C).take (k + 1) := by
    rw [hmain, hev.2, hp.2, ht]
  have hT := tempDraftOf_ne T
  refine ⟨by rw [hmain, hev.1, hp.1], hcmds, ?_, ?_⟩
  · intro j hkj hj
    rw [hcmds]
    have hk4 : k = 0 ∨ k = 1 ∨ k = 2 := by omega
    have hj4 : j = 1 ∨ j = 2 ∨ j = 3 := by omega
    rcases hk4 with rfl | rfl | rfl <;> rcases hj4 with rfl | rfl | rfl <;>
      first
      | omega
      | simp [promotionSteps, listCmd, viewCmd, createDraftCmd, createCmd, deleteCmd, hT]
  · rintro rfl
    rw [hcmds]
    simp [promotionSteps, listCmd, viewCmd, createDraftCmd, deleteCmd]

/-- C2 where the creation of the temporary draft fails: the run fails after the
list, the view and that one create command. -/
theorem promotion_stops_at_failed_step_witness :
    (main exampleEnv createFailsWorld).exit = Exit.panic ∧
      commands (main exampleEnv createFailsWorld).trace
        = [listCmd "https://github.com/org/repo.git",
            viewCmd "https://github.com/org/repo.git" "v1.4.0",
            createDraftCmd "https://github.com/org/repo.git" "v1.4.0-temp" exampleBody "main"] ∧
      deleteCmd "https://github.com/org/repo.git" "v1.4.0"
        ∉ commands (main exampleEnv createFailsWorld).trace :=
  have h := promotion_stops_at_failed_step exampleEnv createFailsWorld
    "https://github.com/org/repo.git" 7 "v1.4.0" "v1.4.0" "2024-01-01T00:00:00Z" [] []
    ⟨1704067200000000000, UTC⟩ exampleBody "main" 0 (by decide) (by decide) (by decide) (by rfl)
    (by rfl) (by decide) (by decide) (by rfl) (by rfl) (by decide) (by decide) (by decide)
    (by decide) (fun j hj => absurd hj (Nat.not_lt_zero j)) (by decide)
  ⟨h.1, h.2.1, h.2.2.2 rfl⟩

/-- C3 on the code: when the list command succeeds and returns no rows, the run
logs "No releases detected, exiting", does not exit, and ends in the run-time
panic of `versionsList[0]` (status 2); the list command is the only command. -/
theorem no_releases_panics (env : Env) (w : World)
    (hrepo : env "GITHUB_REPOSITORY" ≠ "")
    (hdays : Atoi (daysStrOf env) ≠ none)
    (hlist : (w.exec [] (listCmd (repoUrlOf (env "GITHUB_REPOSITORY")))).err = none)
    (hcsv : w.csvReadAll (w.exec [] (listCmd (repoUrlOf (env "GITHUB_REPOSITORY")))).stdout
      = Except.ok []) :
    (main env w).exit = Exit.panic ∧
      commands (main env w).trace = [listCmd (repoUrlOf (env "GITHUB_REPOSITORY"))] ∧
      Event.log "No releases detected, exiting" ∈ (main env w).trace := by
  have hrepo0 : ¬ (env "GITHUB_REPOSITORY").length = 0 := by
    rwa [length_eq_zero_iff]
  obtain ⟨n, hn⟩ := Option.ne_none_iff_exists'.mp hdays
  simp [main, hrepo0, hn, hlist, hcsv, inspect]

/-- C3 at the example configuration with an empty release list: failure status,
not success. -/
theorem no_releases_panics_witness :
    (main exampleEnv noReleasesWorld).exit = Exit.panic ∧
      (main exampleEnv noReleasesWorld).exit ≠ Exit.ok :=
  ⟨(no_releases_panics exampleEnv noReleasesWorld (by decide) (by decide) (by rfl) (by rfl)).1,
    by decide⟩

/-- C4: when `DRY_RUN` is a non-empty string, no run issues a create or delete
command, whatever the world is; and a draft that passes every check (old
enough, a draft in its detail, the marker in its body; with or without labels)
ends with success after the list and the view command only. -/
theorem dry_run_never_mutates (env : Env) (w : World) (hdry : env "DRY_RUN" ≠ "") :
    mutations (main env w) = [] ∧
      ∀ (n : Int) (T title date : String) (more : List String) (rest : List (List String))
        (d : Time) (B C : String),
        env "GITHUB_REPOSITORY" ≠ "" →
        Atoi (daysStrOf env) = some n →
        (w.exec [] (listCmd (repoUrlOf (env "GITHUB_REPOSITORY")))).err = none →
        w.csvReadAll (w.exec [] (listCmd (repoUrlOf (env "GITHUB_REPOSITORY")))).stdout
          = Except.ok ((T :: "Draft" :: title :: date :: more) :: rest) →
        parseTime date = some d →
        d.After (w.now.AddDate (-n)) = false →
        (w.exec [listCmd (repoUrlOf (env "GITHUB_REPOSITORY"))]
          (viewCmd (repoUrlOf (env "GITHUB_REPOSITORY")) T)).err = none →
        w.jsonUnmarshal (w.exec [listCmd (repoUrlOf (env "GITHUB_REPOSITORY"))]
          (viewCmd (repoUrlOf (env "GITHUB_REPOSITORY")) T)).stdout = ⟨B, C, true⟩ →
        Contains B " Dependency Upgrades" = true →
        (main env w).exit = Exit.ok ∧
          commands (main env w).trace = [listCmd (repoUrlOf (env "GITHUB_REPOSITORY")),
            viewCmd (repoUrlOf (env "GITHUB_REPOSITORY")) T] := by
  refine ⟨mutations_main_skip env w (Or.inl hdry), ?_⟩
  intro n T title date more rest d B C hrepo hdays hlist hcsv hdate hold hview hjson hmark
  obtain ⟨t, ht, hmain⟩ := main_eq_evaluate env w n T title date more rest d hrepo hdays
    hlist hcsv hdate hold hview
  rw [hjson] at hmain
  have hev := evaluate_dry env w t
    [listCmd (repoUrlOf (env "GITHUB_REPOSITORY")), viewCmd (repoUrlOf (env "GITHUB_REPOSITORY")) T]
    (repoUrlOf (env "GITHUB_REPOSITORY")) T ⟨B, C, true⟩ rfl hmark hdry
  rw [hmain, hev.1, hev.2.1, ht]
  exact ⟨rfl, rfl⟩

/-- C4 at the example scenario with `DRY_RUN=true`: the eligible draft `v1.4.0`
causes no create or delete command and the run ends with success. -/
theorem dry_run_never_mutates_witness :
    mutations (main dryRunEnv (exampleWorld exampleBody)) = [] ∧
      (main dryRunEnv (exampleWorld exampleBody)).exit = Exit.ok :=
  have h := dry_run_never_mutates dryRunEnv (exampleWorld exampleBody) (by decide)
  ⟨h.1, (h.2 7 "v1.4.0" "v1.4.0" "2024-01-01T00:00:00Z" [] [] ⟨1704067200000000000, UTC⟩
    exampleBody "main" (by decide) (by decide) (by rfl) (by rfl) (by decide) (by decide)
    (by rfl) (by rfl) (by decide)).1⟩

/-- C5: with `ALL_LABELS` unset, for an old enough draft whose detail is a draft
with the marker in its body `B`, the labels are `EXCLUDE_LABELS` split at commas
(`Documentation`, `Features`, `Bug Fixes` when it is unset).  If some label
occurs in `B` as a contiguous piece of text, anywhere, then the run ends with
success after the list and the view command, without create or delete; it
reaches the label loop, logs the line of every label that occurs, and its last
line is the notification line when `DRY_RUN` is unset (the dry-run line
otherwise), not the line of an early exit.  If no label occurs in `B` and
`DRY_RUN` is unset, the promotion is started: the first create or delete command
is the creation of the temporary draft. -/
theorem label_blocks_promotion (env : Env) (w : World) (repoUrl : String) (n : Int)
    (T title date : String) (more : List String) (rest : List (List String)) (d : Time)
    (B C : String)
    (hurl : repoUrl = repoUrlOf (env "GITHUB_REPOSITORY"))
    (hrepo : env "GITHUB_REPOSITORY" ≠ "")
    (hdays : Atoi (daysStrOf env) = some n)
    (hlist : (w.exec [] (listCmd repoUrl)).err = none)
    (hcsv : w.csvReadAll (w.exec [] (listCmd repoUrl)).stdout
      = Except.ok ((T :: "Draft" :: title :: date :: more) :: rest))
    (hdate : parseTime date = some d)
    (hold : d.After (w.now.AddDate (-n)) = false)
    (hview : (w.exec [listCmd repoUrl] (viewCmd repoUrl T)).err = none)
    (hjson : w.jsonUnmarshal (w.exec [listCmd repoUrl] (viewCmd repoUrl T)).stdout
      = ⟨B, C, true⟩)
    (hmark : Contains B " Dependency Upgrades" = true)
    (hall : env "ALL_LABELS" = "") :
    (env "EXCLUDE_LABELS" = "" →
        excludeLabelsOf env = ["Documentation", "Features", "Bug Fixes"]) ∧
      excludeLabelsOf env = Split (excludeLabelsStrOf env) ',' ∧
      ((∃ l ∈ Split (excludeLabelsStrOf env) ',', l.data <:+: B.data) →
        mutations (main env w) = [] ∧
        commands (main env w).trace = [listCmd repoUrl, viewCmd repoUrl T] ∧
        (main env w).exit = Exit.ok ∧
        Event.log "Looking for labels other than dependency updates" ∈ (main env w).trace ∧
        (∀ l ∈ Split (excludeLabelsStrOf env) ',', l.data <:+: B.data →
          Event.log ("Found label:" ++ l ++ ", disabling auto-release") ∈ (main env w).trace) ∧
        (env "DRY_RUN" = "" → (main env w).trace.getLast? = some (Event.log
          "Draft release is not only dependency changes, notifications being sent instead")) ∧
        (env "DRY_RUN" ≠ "" → (main env w).trace.getLast?
          = some (Event.log "DRY_RUN environmental variable set"))) ∧
      ((∀ l ∈ Split (excludeLabelsStrOf env) ',', ¬ l.data <:+: B.data) →
        env "DRY_RUN" = "" →
        (mutations (main env w)).head? = some (createDraftCmd repoUrl (T ++ "-temp") B C)) := by
  subst hurl
  obtain ⟨t, ht, hmain⟩ := main_eq_evaluate env w n T title date more rest d hrepo hdays
    hlist hcsv hdate hold hview
  rw [hjson] at hmain
  have hlabels := excludeLabelsOf_unset env hall
  refine ⟨?_, hlabels, ?_, ?_⟩
  · intro h
    rw [hlabels]
    simp only [excludeLabelsStrOf, h, String.length, List.length_nil, if_true]
    decide
  · rintro ⟨l, hl, hinfix⟩
    have hloop : (labelLoop B (excludeLabelsOf env) true).2 = false :=
      labelLoop_of_mem B _ true l (hlabels ▸ hl) ((Contains_iff B l).mpr hinfix)
    have hskip := commands_evaluate_skip env w t
      [listCmd (repoUrlOf (env "GITHUB_REPOSITORY")),
        viewCmd (repoUrlOf (env "GITHUB_REPOSITORY")) T]
      (repoUrlOf (env "GITHUB_REPOSITORY")) T ⟨B, C, true⟩ (Or.inr hloop)
    have hcmds : commands (main env w).trace = [listCmd (repoUrlOf (env "GITHUB_REPOSITORY")),
        viewCmd (repoUrlOf (env "GITHUB_REPOSITORY")) T] := by
      rw [hmain, hskip, ht]
    have hreach := evaluate_reaches_loop env w t
      [listCmd (repoUrlOf (env "GITHUB_REPOSITORY")),
        viewCmd (repoUrlOf (env "GITHUB_REPOSITORY")) T]
      (repoUrlOf (env "GITHUB_REPOSITORY")) T ⟨B, C, true⟩ rfl hmark
    refine ⟨by simp [mutations, hcmds], hcmds, ?_, ?_, ?_, ?_, ?_⟩
    rotate_left
    · rw [hmain]
      exact hreach.1
    · intro l' hl' hinfix'
      rw [hmain]
      exact hreach.2 _ (labelLoop_logs B _ true l' (hlabels ▸ hl')
        ((Contains_iff B l').mpr hinfix'))
    rotate_right
    · by_cases hdry : env "DRY_RUN" = ""
      · rw [hmain]
        exact (evaluate_unsuitable env w t _ _ T ⟨B, C, true⟩ rfl hmark hdry hloop).1
      · rw [hmain]
        exact (evaluate_dry env w t _ _ T ⟨B, C, true⟩ rfl hmark hdry).1
    · intro hdry
      rw [hmain]
      exact (evaluate_unsuitable env w t _ _ T ⟨B, C, true⟩ rfl hmark hdry hloop).2.2
    · intro hdry
      rw [hmain]
      exact (evaluate_dry env w t _ _ T ⟨B, C, true⟩ rfl hmark hdry).2.2
  · intro hnone hdry
    have hloop := labelLoop_of_none B (excludeLabelsOf env) true (by
      intro l hl
      rw [hlabels] at hl
      have := hnone l hl
      rw [← Contains_iff] at this
      simpa using this)
    have hev := evaluate_promote env w t
      [listCmd (repoUrlOf (env "GITHUB_REPOSITORY")),
        viewCmd (repoUrlOf (env "GITHUB_REPOSITORY")) T]
      (repoUrlOf (env "GITHUB_REPOSITORY")) T ⟨B, C, true⟩ rfl hmark hdry (by rw [hloop])
    have hhead := promote_head w
      [listCmd (repoUrlOf (env "GITHUB_REPOSITORY")),
        viewCmd (repoUrlOf (env "GITHUB_REPOSITORY")) T]
      (repoUrlOf (env "GITHUB_REPOSITORY")) T ⟨B, C, true⟩
    cases hc : commands (promote w
      [listCmd (repoUrlOf (env "GITHUB_REPOSITORY")),
        viewCmd (repoUrlOf (env "GITHUB_REPOSITORY")) T]
      (repoUrlOf (env "GITHUB_REPOSITORY")) T ⟨B, C, true⟩).trace with
    | nil => simp [hc] at hhead
    | cons c cs =>
      simp only [hc, List.head?_cons, Option.some.injEq] at hhead
      subst hhead
      simp [mutations, hmain, hev.2, ht, hc, tempDraftOf]

/-- C5 on two bodies under the default labels: `Features` inside
`NewFeaturesList` blocks the promotion and ends on the notification line, while
`features` in lower case lets the promotion start. -/
theorem label_blocks_promotion_witness :
    (mutations (main exampleEnv (exampleWorld midWordBody)) = [] ∧
      (main exampleEnv (exampleWorld midWordBody)).trace.getLast? = some (Event.log
        "Draft release is not only dependency changes, notifications being sent instead")) ∧
    (mutations (main exampleEnv (exampleWorld lowerCaseBody))).head?
      = some (createDraftCmd "https://github.com/org/repo.git" "v1.4.0-temp"
          lowerCaseBody "main") :=
  have h1 := label_blocks_promotion exampleEnv (exampleWorld midWordBody)
    "https://github.com/org/repo.git" 7 "v1.4.0" "v1.4.0" "2024-01-01T00:00:00Z" [] []
    ⟨1704067200000000000, UTC⟩ midWordBody "main" (by decide) (by decide) (by decide) (by rfl)
    (by rfl) (by decide) (by decide) (by rfl) (by rfl) (by decide) (by decide)
  have h2 := label_blocks_promotion exampleEnv (exampleWorld lowerCaseBody)
    "https://github.com/org/repo.git" 7 "v1.4.0" "v1.4.0" "2024-01-01T00:00:00Z" [] []
    ⟨1704067200000000000, UTC⟩ lowerCaseBody "main" (by decide) (by decide) (by decide) (by rfl)
    (by rfl) (by decide) (by decide) (by rfl) (by rfl) (by decide) (by decide)
  have hmid := h1.2.2.1 ⟨"Features", by decide, by decide⟩
  ⟨⟨hmid.1, hmid.2.2.2.2.2.1 (by decide)⟩, h2.2.2.2 (by decide) (by decide)⟩

/-- C6 as stated fails at two inputs.  With `RELEASE_DAYS=9223372036854775807`, a
clock in UTC at 2024-01-10 and a draft of 2024-01-01, the draft is later than
the clock minus that many days, yet the run views it: the day count wraps at 64
bits and the limit is 2024-01-11.  With the default 7 days, a clock in New York
at 2024-11-05 12:00 (17:00Z) and a draft of 2024-10-29T16:30:00Z, the draft is
not later than the clock minus 7 times 86400 seconds (2024-10-29T17:00:00Z),
yet the run exits as too young: the limit is 12:00 in New York seven calendar
days before, 2024-10-29T16:00:00Z, across the end of daylight time. -/
theorem too_young_exact_days_counterexample :
    (Atoi (daysStrOf maxDaysEnv) = some 9223372036854775807 ∧
      parseTime "2024-01-01T00:00:00Z" = some ⟨1704067200000000000, UTC⟩ ∧
      (exampleWorld exampleBody).now.unixNano - 9223372036854775807 * nanosPerDay
        < 1704067200000000000 ∧
      ((exampleWorld exampleBody).now.AddDate (-9223372036854775807)).unixNano
        = 1704931200000000000 ∧
      (commands (main maxDaysEnv (exampleWorld exampleBody)).trace).get? 1
        = some ["gh", "release", "-R", "https://github.com/org/repo.git", "view", "v1.4.0",
            "--json", "body,targetCommitish,isDraft"] ∧
      ¬ (((main maxDaysEnv (exampleWorld exampleBody)).exit = Exit.ok ∧
          commands (main maxDaysEnv (exampleWorld exampleBody)).trace
            = [["gh", "release", "-R", "https://github.com/org/repo.git", "list"]])
        ↔ (exampleWorld exampleBody).now.unixNano - 9223372036854775807 * nanosPerDay
          < 1704067200000000000)) ∧
    (Atoi (daysStrOf exampleEnv) = some 7 ∧
      parseTime "2024-10-29T16:30:00Z" = some ⟨1730219400000000000, UTC⟩ ∧
      ¬ (newYorkWorld.now.unixNano - 7 * nanosPerDay < 1730219400000000000) ∧
      (newYorkWorld.now.AddDate (-7)).unixNano = 1730217600000000000 ∧
      (main exampleEnv newYorkWorld).exit = Exit.ok ∧
      commands (main exampleEnv newYorkWorld).trace
        = [["gh", "release", "-R", "https://github.com/org/repo.git", "list"]] ∧
      ¬ (((main exampleEnv newYorkWorld).exit = Exit.ok ∧
          commands (main exampleEnv newYorkWorld).trace
            = [["gh", "release", "-R", "https://github.com/org/repo.git", "list"]])
        ↔ newYorkWorld.now.unixNano - 7 * nanosPerDay < 1730219400000000000)) := by
  decide

/-- C6, amended: for a latest release with status `Draft` whose date parses to
`d`, the clock `now` and a threshold of `n` days, the run exits with success
after the list command alone (no view, create or delete) exactly when `d` is
strictly later than the limit `now.AddDate(0, 0, -n)`.  A draft dated exactly at
the limit, or one second before it, is old enough and the view command is
issued; a draft dated one second after the limit exits as too young.  When the
zone of the clock has a fixed offset (of at most a day), the clock is between
1970 and 2255 and the threshold is at most 10^13 days either way, the limit is
`now` minus `n` times 86400 seconds, and the run exits after the list command
alone exactly when `d` is strictly later than that. -/
theorem too_young_iff_after_limit (env : Env) (w : World) (repoUrl : String) (n : Int)
    (T title date : String) (more : List String) (rest : List (List String)) (d : Time)
    (hurl : repoUrl = "https://github.com/" ++ env "GITHUB_REPOSITORY" ++ ".git")
    (hrepo : env "GITHUB_REPOSITORY" ≠ "")
    (hdays : Atoi (daysStrOf env) = some n)
    (hlist : (w.exec [] ["gh", "release", "-R", repoUrl, "list"]).err = none)
    (hcsv : w.csvReadAll (w.exec [] ["gh", "release", "-R", repoUrl, "list"]).stdout
      = Except.ok ((T :: "Draft" :: title :: date :: more) :: rest))
    (hdate : parseTime date = some d) :
    (((main env w).exit = Exit.ok ∧
          commands (main env w).trace = [["gh", "release", "-R", repoUrl, "list"]])
        ↔ d.After (w.now.AddDate (-n)) = true) ∧
      (d.After (w.now.AddDate (-n)) = false →
        (commands (main env w).trace).get? 1 = some ["gh", "release", "-R", repoUrl, "view", T,
          "--json", "body,targetCommitish,isDraft"]) ∧
      (d.unixNano = (w.now.AddDate (-n)).unixNano →
        (commands (main env w).trace).get? 1 = some ["gh", "release", "-R", repoUrl, "view", T,
          "--json", "body,targetCommitish,isDraft"]) ∧
      (d.unixNano = (w.now.AddDate (-n)).unixNano - 1000000000 →
        (commands (main env w).trace).get? 1 = some ["gh", "release", "-R", repoUrl, "view", T,
          "--json", "body,targetCommitish,isDraft"]) ∧
      (d.unixNano = (w.now.AddDate (-n)).unixNano + 1000000000 →
        (main env w).exit = Exit.ok ∧
          commands (main env w).trace = [["gh", "release", "-R", repoUrl, "list"]]) ∧
      (w.now.loc.transitions = [] →
        -86400 ≤ w.now.loc.initial → w.now.loc.initial ≤ 86400 →
        0 ≤ w.now.unixNano → w.now.unixNano < 9000000000000000000 →
        -10000000000000 ≤ n → n ≤ 10000000000000 →
        (w.now.AddDate (-n)).unixNano = w.now.unixNano - n * nanosPerDay ∧
          (((main env w).exit = Exit.ok ∧
              commands (main env w).trace = [["gh", "release", "-R", repoUrl, "list"]])
            ↔ w.now.unixNano - n * nanosPerDay < d.unixNano)) := by
  have hurl2 : repoUrl = repoUrlOf (env "GITHUB_REPOSITORY") := hurl
  subst hurl2
  have hlistCmd : ["gh", "release", "-R", repoUrlOf (env "GITHUB_REPOSITORY"), "list"]
      = listCmd (repoUrlOf (env "GITHUB_REPOSITORY")) := rfl
  have hviewCmd : ["gh", "release", "-R", repoUrlOf (env "GITHUB_REPOSITORY"), "view", T,
      "--json", "body,targetCommitish,isDraft"]
      = viewCmd (repoUrlOf (env "GITHUB_REPOSITORY")) T := rfl
  rw [hlistCmd] at hlist hcsv
  rw [hlistCmd, hviewCmd]
  have hold : d.After (w.now.AddDate (-n)) = false →
      (commands (main env w).trace).get? 1
        = some (viewCmd (repoUrlOf (env "GITHUB_REPOSITORY")) T) :=
    main_views env w n T title date more rest d hrepo hdays hlist hcsv hdate
  have hyoung : d.After (w.now.AddDate (-n)) = true →
      (main env w).exit = Exit.ok ∧
        commands (main env w).trace = [listCmd (repoUrlOf (env "GITHUB_REPOSITORY"))] :=
    main_too_young env w n T title date more rest d hrepo hdays hlist hcsv hdate
  have hiff : ((main env w).exit = Exit.ok ∧
      commands (main env w).trace = [listCmd (repoUrlOf (env "GITHUB_REPOSITORY"))])
      ↔ d.After (w.now.AddDate (-n)) = true := by
    refine ⟨?_, hyoung⟩
    rintro ⟨_, hcmds⟩
    by_contra h
    have hv := hold (by simpa using h)
    rw [hcmds] at hv
    simp at hv
  obtain ⟨hd1, hd2⟩ := parseTime_range date d hdate
  have hnear : ∀ c : Int, -1000000000 ≤ c → c ≤ 1000000000 →
      d.unixNano = (w.now.AddDate (-n)).unixNano + c →
      (d.After (w.now.AddDate (-n)) = true ↔ 0 < c) := by
    intro c hc1 hc2 hc
    rw [After_iff_lt d (w.now.AddDate (-n)) (by omega) (by omega) (by omega) (by omega)]
    omega
  refine ⟨hiff, hold, ?_, ?_, ?_, ?_⟩
  · intro h
    apply hold
    have := hnear 0 (by omega) (by omega) (by omega)
    simpa using this
  · intro h
    apply hold
    have := hnear (-1000000000) (by omega) (by omega) (by omega)
    simpa using this
  · intro h
    apply hyoung
    exact (hnear 1000000000 (by omega) (by omega) (by omega)).mpr (by omega)
  · intro hzone hoff1 hoff2 hnow1 hnow2 hn1 hn2
    have hlimit := AddDate_fixed_offset w.now n hzone hoff1 hoff2 hnow1 hnow2 hn1 hn2
    refine ⟨hlimit, ?_⟩
    rw [hiff]
    have hday : nanosPerDay = 86400000000000 := by decide
    have hlimit2 := hlimit
    rw [hday] at hlimit2
    rw [After_iff_lt d (w.now.AddDate (-n)) (by omega) (by omega) (by omega) (by omega),
      hlimit]

/-- C6, amended, at the boundary, with the clock in UTC at 2024-01-10T00:00:00Z
and the default threshold of 7 days: the limit is 2024-01-03T00:00:00Z, the
drafts of that instant and of one second earlier are viewed, the draft of one
second later exits as too young. -/
theorem too_young_iff_after_limit_witness :
    ((datedWorld "2024-01-03T00:00:00Z").now.AddDate (-7)).unixNano = 1704240000000000000 ∧
      (commands (main exampleEnv (datedWorld "2024-01-03T00:00:00Z")).trace).get? 1
        = some ["gh", "release", "-R", "https://github.com/org/repo.git", "view", "v1.4.0",
            "--json", "body,targetCommitish,isDraft"] ∧
      (commands (main exampleEnv (datedWorld "2024-01-02T23:59:59Z")).trace).get? 1
        = some ["gh", "release", "-R", "https://github.com/org/repo.git", "view", "v1.4.0",
            "--json", "body,targetCommitish,isDraft"] ∧
      ((main exampleEnv (datedWorld "2024-01-03T00:00:01Z")).exit = Exit.ok ∧
        commands (main exampleEnv (datedWorld "2024-01-03T00:00:01Z")).trace
          = [["gh", "release", "-R", "https://github.com/org/repo.git", "list"]]) :=
  ⟨((too_young_iff_after_limit exampleEnv (datedWorld "2024-01-03T00:00:00Z")
      "https://github.com/org/repo.git" 7 "v1.4.0" "v1.4.0" "2024-01-03T00:00:00Z" [] []
      ⟨1704240000000000000, UTC⟩ (by decide) (by decide) (by decide) (by rfl) (by rfl)
      (by decide)).2.2.2.2.2 (by decide) (by decide) (by decide) (by decide) (by decide)
      (by decide) (by decide)).1,
    (too_young_iff_after_limit exampleEnv (datedWorld "2024-01-03T00:00:00Z")
      "https://github.com/org/repo.git" 7 "v1.4.0" "v1.4.0" "2024-01-03T00:00:00Z" [] []
      ⟨1704240000000000000, UTC⟩ (by decide) (by decide) (by decide) (by rfl) (by rfl)
      (by decide)).2.2.1 (by decide),
    (too_young_iff_after_limit exampleEnv (datedWorld "2024-01-02T23:59:59Z")
      "https://github.com/org/repo.git" 7 "v1.4.0" "v1.4.0" "2024-01-02T23:59:59Z" [] []
      ⟨1704239999000000000, UTC⟩ (by decide) (by decide) (by decide) (by rfl) (by rfl)
      (by decide)).2.2.2.1 (by decide),
    (too_young_iff_after_limit exampleEnv (datedWorld "2024-01-03T00:00:01Z")
      "https://github.com/org/repo.git" 7 "v1.4.0" "v1.4.0" "2024-01-03T00:00:01Z" [] []
      ⟨1704240001000000000, UTC⟩ (by decide) (by decide) (by decide) (by rfl) (by rfl)
      (by decide)).2.2.2.2.1 (by decide)⟩

/-- C7: when `ALL_LABELS` is a non-empty string the label list is empty,
whatever `EXCLUDE_LABELS` holds, so the label loop leaves every body suitable.
For an old enough draft whose detail is a draft with the marker in its body,
whatever else the body contains, and `DRY_RUN` unset, the promotion is run: its
first command is the creation of the temporary draft, and when every command
succeeds the four steps are issued and the run ends with success. -/
theorem all_labels_disables_label_check (env : Env) (w : World) (repoUrl : String) (n : Int)
    (T title date : String) (more : List String) (rest : List (List String)) (d : Time)
    (B C : String)
    (hurl : repoUrl = repoUrlOf (env "GITHUB_REPOSITORY"))
    (hrepo : env "GITHUB_REPOSITORY" ≠ "")
    (hdays : Atoi (daysStrOf env) = some n)
    (hlist : (w.exec [] (listCmd repoUrl)).err = none)
    (hcsv : w.csvReadAll (w.exec [] (listCmd repoUrl)).stdout
      = Except.ok ((T :: "Draft" :: title :: date :: more) :: rest))
    (hdate : parseTime date = some d)
    (hold : d.After (w.now.AddDate (-n)) = false)
    (hview : (w.exec [listCmd repoUrl] (viewCmd repoUrl T)).err = none)
    (hjson : w.jsonUnmarshal (w.exec [listCmd repoUrl] (viewCmd repoUrl T)).stdout
      = ⟨B, C, true⟩)
    (hmark : Contains B " Dependency Upgrades" = true)
    (hall : env "ALL_LABELS" ≠ "")
    (hdry : env "DRY_RUN" = "") :
    excludeLabelsOf env = [] ∧
      (∀ body, labelLoop body (excludeLabelsOf env) true = ([], true)) ∧
      (mutations (main env w)).head? = some (createDraftCmd repoUrl (T ++ "-temp") B C) ∧
      ((∀ hist argv, (w.exec hist argv).err = none) →
        mutations (main env w)
          = [createDraftCmd repoUrl (T ++ "-temp") B C, deleteCmd repoUrl T,
              createCmd repoUrl T B C, deleteCmd repoUrl (T ++ "-temp")] ∧
        (main env w).exit = Exit.ok) := by
  subst hurl
  obtain ⟨t, ht, hmain⟩ := main_eq_evaluate env w n T title date more rest d hrepo hdays
    hlist hcsv hdate hold hview
  rw [hjson] at hmain
  have hnil := excludeLabelsOf_set env hall
  have hloop : ∀ body, labelLoop body (excludeLabelsOf env) true = ([], true) := by
    intro body
    rw [hnil]
    rfl
  have hev := evaluate_promote env w t
    [listCmd (repoUrlOf (env "GITHUB_REPOSITORY")), viewCmd (repoUrlOf (env "GITHUB_REPOSITORY")) T]
    (repoUrlOf (env "GITHUB_REPOSITORY")) T ⟨B, C, true⟩ rfl hmark hdry (by rw [hloop])
  refine ⟨hnil, hloop, ?_, ?_⟩
  · have hhead := promote_head w
      [listCmd (repoUrlOf (env "GITHUB_REPOSITORY")),
        viewCmd (repoUrlOf (env "GITHUB_REPOSITORY")) T]
      (repoUrlOf (env "GITHUB_REPOSITORY")) T ⟨B, C, true⟩
    cases hc : commands (promote w
      [listCmd (repoUrlOf (env "GITHUB_REPOSITORY")),
        viewCmd (repoUrlOf (env "GITHUB_REPOSITORY")) T]
      (repoUrlOf (env "GITHUB_REPOSITORY")) T ⟨B, C, true⟩).trace with
    | nil => simp [hc] at hhead
    | cons c cs =>
      simp only [hc, List.head?_cons, Option.some.injEq] at hhead
      subst hhead
      simp [mutations, hmain, hev.2, ht, hc, tempDraftOf]
  · intro hok
    have hp := promote_ok w
      [listCmd (repoUrlOf (env "GITHUB_REPOSITORY")),
        viewCmd (repoUrlOf (env "GITHUB_REPOSITORY")) T]
      (repoUrlOf (env "GITHUB_REPOSITORY")) T ⟨B, C, true⟩ (fun j _ => hok _ _)
    simp [mutations, hmain, hev, hp, ht, promotionSteps, tempDraftOf]

/-- C7 at the example scenario with `ALL_LABELS=true` and a body that holds the
three default labels: the four steps are issued and the run succeeds. -/
theorem all_labels_disables_label_check_witness :
    mutations (main allLabelsEnv (exampleWorld labelledBody))
        = [createDraftCmd "https://github.com/org/repo.git" "v1.4.0-temp" labelledBody "main",
            deleteCmd "https://github.com/org/repo.git" "v1.4.0",
            createCmd "https://github.com/org/repo.git" "v1.4.0" labelledBody "main",
            deleteCmd "https://github.com/org/repo.git" "v1.4.0-temp"] ∧
      (main allLabelsEnv (exampleWorld labelledBody)).exit = Exit.ok ∧
      Contains labelledBody "Features" = true :=
  have h := all_labels_disables_label_check allLabelsEnv (exampleWorld labelledBody)
    "https://github.com/org/repo.git" 7 "v1.4.0" "v1.4.0" "2024-01-01T00:00:00Z" [] []
    ⟨1704067200000000000, UTC⟩ labelledBody "main" (by decide) (by decide) (by decide) (by rfl)
    (by rfl) (by decide) (by decide) (by rfl) (by rfl) (by decide) (by decide) (by decide)
  ⟨(h.2.2.2 (fun _ _ => rfl)).1, (h.2.2.2 (fun _ _ => rfl)).2, by decide⟩

/-- C8: for an old enough draft whose detail is a draft and whose body does not
contain the text " Dependency Upgrades" (with the space before it), the run ends
with success after the list and the view command, without create or delete,
whatever the labels, `ALL_LABELS` and `DRY_RUN` are and whatever else the body
contains. -/
theorem no_marker_not_eligible (env : Env) (w : World) (repoUrl : String) (n : Int)
    (T title date : String) (more : List String) (rest : List (List String)) (d : Time)
    (B C : String)
    (hurl : repoUrl = repoUrlOf (env "GITHUB_REPOSITORY"))
    (hrepo : env "GITHUB_REPOSITORY" ≠ "")
    (hdays : Atoi (daysStrOf env) = some n)
    (hlist : (w.exec [] (listCmd repoUrl)).err = none)
    (hcsv : w.csvReadAll (w.exec [] (listCmd repoUrl)).stdout
      = Except.ok ((T :: "Draft" :: title :: date :: more) :: rest))
    (hdate : parseTime date = some d)
    (hold : d.After (w.now.AddDate (-n)) = false)
    (hview : (w.exec [listCmd repoUrl] (viewCmd repoUrl T)).err = none)
    (hjson : w.jsonUnmarshal (w.exec [listCmd repoUrl] (viewCmd repoUrl T)).stdout
      = ⟨B, C, true⟩)
    (hnomark : ¬ " Dependency Upgrades".data <:+: B.data) :
    (main env w).exit = Exit.ok ∧
      mutations (main env w) = [] ∧
      commands (main env w).trace = [listCmd repoUrl, viewCmd repoUrl T] := by
  subst hurl
  obtain ⟨t, ht, hmain⟩ := main_eq_evaluate env w n T title date more rest d hrepo hdays
    hlist hcsv hdate hold hview
  rw [hjson] at hmain
  have hmark : Contains B " Dependency Upgrades" = false := by
    rw [← Contains_iff] at hnomark
    simpa using hnomark
  have hev := evaluate_no_marker env w t
    [listCmd (repoUrlOf (env "GITHUB_REPOSITORY")), viewCmd (repoUrlOf (env "GITHUB_REPOSITORY")) T]
    (repoUrlOf (env "GITHUB_REPOSITORY")) T ⟨B, C, true⟩ rfl hmark
  have hcmds : commands (main env w).trace = [listCmd (repoUrlOf (env "GITHUB_REPOSITORY")),
      viewCmd (repoUrlOf (env "GITHUB_REPOSITORY")) T] := by
    rw [hmain, hev.2, ht]
  exact ⟨by rw [hmain, hev.1], by simp [mutations, hcmds], hcmds⟩

/-- C8 on a body that starts with `Dependency Upgrades` and has the words in
lower case further down: no marker, so success without create or delete, under
the default labels and under `ALL_LABELS`. -/
theorem no_marker_not_eligible_witness :
    ((main exampleEnv (exampleWorld noMarkerBody)).exit = Exit.ok ∧
      mutations (main exampleEnv (exampleWorld noMarkerBody)) = []) ∧
    ((main allLabelsEnv (exampleWorld noMarkerBody)).exit = Exit.ok ∧
      mutations (main allLabelsEnv (exampleWorld noMarkerBody)) = []) :=
  have h1 := no_marker_not_eligible exampleEnv (exampleWorld noMarkerBody)
    "https://github.com/org/repo.git" 7 "v1.4.0" "v1.4.0" "2024-01-01T00:00:00Z" [] []
    ⟨1704067200000000000, UTC⟩ noMarkerBody "main" (by decide) (by decide) (by decide) (by rfl)
    (by rfl) (by decide) (by decide) (by rfl) (by rfl) (by decide)
  have h2 := no_marker_not_eligible allLabelsEnv (exampleWorld noMarkerBody)
    "https://github.com/org/repo.git" 7 "v1.4.0" "v1.4.0" "2024-01-01T00:00:00Z" [] []
    ⟨1704067200000000000, UTC⟩ noMarkerBody "main" (by decide) (by decide) (by decide) (by rfl)
    (by rfl) (by decide) (by decide) (by rfl) (by rfl) (by decide)
  ⟨⟨h1.1, h1.2.1⟩, ⟨h2.1, h2.2.1⟩⟩

/-- C9: when the first row of the release list has the fields (tag, status,
title, date) and the status is not exactly `Draft`, the run ends with success
after the list command alone: no view, create or delete command.  The date is
not parsed: nothing is assumed about it. -/
theorem not_draft_exits (env : Env) (w : World) (repoUrl : String)
    (T status title date : String) (more : List String) (rest : List (List String))
    (hurl : repoUrl = repoUrlOf (env "GITHUB_REPOSITORY"))
    (hrepo : env "GITHUB_REPOSITORY" ≠ "")
    (hdays : Atoi (daysStrOf env) ≠ none)
    (hlist : (w.exec [] (listCmd repoUrl)).err = none)
    (hcsv : w.csvReadAll (w.exec [] (listCmd repoUrl)).stdout
      = Except.ok ((T :: status :: title :: date :: more) :: rest))
    (hstatus : status ≠ "Draft") :
    (main env w).exit = Exit.ok ∧
      commands (main env w).trace = [listCmd repoUrl] ∧
      mutations (main env w) = [] ∧
      (main env w).trace.getLast?
        = some (Event.log ("Latest release (" ++ T ++ ") is not a pending draft, exiting")) := by
  subst hurl
  have hrepo0 : ¬ (env "GITHUB_REPOSITORY").length = 0 := by
    rwa [length_eq_zero_iff]
  obtain ⟨n, hn⟩ := Option.ne_none_iff_exists'.mp hdays
  simp only [mutations, main, hrepo0, if_false, hn, hlist, hcsv, inspect, List.get?, ne_eq,
    hstatus, not_false_eq_true, if_true, List.getLast?_concat]
  simp

/-- C9 on the row `(v1.4.0, Latest, v1.4.0, not-a-date)`: the date does not
parse, and the run still ends with success after the list command alone. -/
theorem not_draft_exits_witness :
    parseTime "not-a-date" = none ∧
      (main exampleEnv publishedWorld).exit = Exit.ok ∧
      commands (main exampleEnv publishedWorld).trace
        = [listCmd "https://github.com/org/repo.git"] :=
  have h := not_draft_exits exampleEnv publishedWorld "https://github.com/org/repo.git"
    "v1.4.0" "Latest" "v1.4.0" "not-a-date" [] [] (by decide) (by decide) (by decide) (by rfl)
    (by rfl) (by decide)
  ⟨by decide, h.1, h.2.1⟩

/-- C10: with `ALL_LABELS` unset, when the label text split at commas has an
empty element, the label loop rejects every body (the empty label occurs in
every text), and no run with that configuration issues a create or delete
command. -/
theorem empty_label_blocks_every_run (env : Env) (w : World)
    (hall : env "ALL_LABELS" = "")
    (hempty : "" ∈ Split (excludeLabelsStrOf env) ',') :
    (∀ body, Contains body "" = true) ∧
      (∀ body, (labelLoop body (excludeLabelsOf env) true).2 = false) ∧
      mutations (main env w) = [] := by
  have hloop : ∀ body, (labelLoop body (excludeLabelsOf env) true).2 = false := by
    intro body
    apply labelLoop_of_mem body _ true ""
    · rw [excludeLabelsOf_unset env hall]
      exact hempty
    · exact Contains_empty body
  exact ⟨Contains_empty, hloop, mutations_main_skip env w (Or.inr hloop)⟩

/-- C10 with `EXCLUDE_LABELS="Documentation,"`: the split gives an empty label,
and the draft of the example, whose body has the marker and none of the named
labels, is not promoted. -/
theorem empty_label_blocks_every_run_witness :
    Split "Documentation," ',' = ["Documentation", ""] ∧
      Contains exampleBody "Documentation" = false ∧
      mutations (main trailingCommaEnv (exampleWorld exampleBody)) = [] :=
  ⟨by decide, by decide,
    (empty_label_blocks_every_run trailingCommaEnv (exampleWorld exampleBody) (by decide)
      (by decide)).2.2⟩

end DraftReleaser
